import Mathlib

/-!
Verification of the UserPravah route/navigation-graph extraction engine.

The definitions below are a shallow embedding of the TypeScript sources:

  * src/frameworks/angular/angular-analyzer.ts
      (`parseRouteObject`, `parseRouteArray`, `addRouteToCollection`,
       `parseNavigationCall`, `loadAndParseLazyModule`)
  * src/frameworks/react/react-analyzer.ts
      (`addRoute`, `addHierarchicalFlows`)
  * src/outputs/dot/dot-generator.ts (second generator in the file)
      (`convertAnalysisToGraphData`, `createGraph`, `cleanRoutePath`, ...)

JavaScript strings are modelled as Lean `String`; `string | undefined`
fields as `Option String`, where JavaScript truthiness (`undefined` and
`""` are falsy) is captured by `truthy`.  JavaScript regular-expression
operations used by the engine are small and are translated character by
character; each such definition cites the regex it embeds.
-/

set_option autoImplicit false

namespace UserPravah

/-- JavaScript truthiness of a `string | undefined` value: `undefined`
and the empty string are falsy, every other string is truthy. -/
def truthy : Option String → Bool
  | none => false
  | some s => s != ""

/-- One left-to-right pass of the JavaScript global replacement
`s.replace(slashSlashRegex, "/")` (the regex matching exactly two
consecutive slashes), as performed in `parseRouteObject` (angular-analyzer.ts
line 638) and on navigation targets (dot-generator.ts).  The JS engine
scans left to right and continues after each two-character match, so the
replacement is a single pass, not a fixpoint. -/
def collapseSlashes : List Char → List Char
  | [] => []
  | [c] => [c]
  | c :: d :: rest =>
    if c == '/' && d == '/' then '/' :: collapseSlashes rest
    else c :: collapseSlashes (d :: rest)

/-- The trailing-slash strip of angular-analyzer.ts lines 639-641:
`if (fullPath !== "/" && fullPath.endsWith("/")) fullPath = fullPath.slice(0, -1)`. -/
def stripTrail (l : List Char) : List Char :=
  if l ≠ ['/'] ∧ l.getLast? = some '/' then l.dropLast else l

/-- Line 642 of angular-analyzer.ts: an empty path becomes `/`. -/
def emptyToRoot (l : List Char) : List Char :=
  if l = [] then ['/'] else l

/-- The complete fullPath normalisation of angular-analyzer.ts lines 637-642:
collapse doubled slashes (single pass), strip one trailing slash unless the
result is exactly `/`, and map the empty string to `/`. -/
def normalizeChars (l : List Char) : List Char :=
  emptyToRoot (stripTrail (collapseSlashes l))

/-- String wrapper for `normalizeChars`; this is the Path Normalizer of the
specification, exactly as implemented inline in `parseRouteObject`. -/
def normalizeSlashes (s : String) : String :=
  ⟨normalizeChars s.data⟩

/-- No two consecutive slashes occur in the character list. -/
def noTwo : List Char → Bool
  | [] => true
  | [_] => true
  | c :: d :: rest => !(c == '/' && d == '/') && noTwo (d :: rest)

/-- No three consecutive slashes occur in the character list. -/
def noThree : List Char → Bool
  | [] => true
  | [_] => true
  | [_, _] => true
  | c :: d :: e :: rest => !(c == '/' && d == '/' && e == '/') && noThree (d :: e :: rest)

/-- Bool-level substring containment test mirroring JavaScript
`String.prototype.includes`. -/
def startsWithList : List Char → List Char → Bool
  | [], _ => true
  | _ :: _, [] => false
  | p :: ps, c :: cs => p == c && startsWithList ps cs

/-- Does `pat` occur as a contiguous substring of `text`? -/
def subOccurs (pat : List Char) : List Char → Bool
  | [] => pat.isEmpty
  | c :: cs => startsWithList pat (c :: cs) || subOccurs pat cs

/-- JavaScript `s.includes(pat)`. -/
def strIncludes (s pat : String) : Bool :=
  subOccurs pat.data s.data

/-- JavaScript `s.startsWith(pre)`. -/
def strStarts (s pre : String) : Bool :=
  startsWithList pre.data s.data

/-! ### The Route data model (src/core/types.ts)

A `Route` is `path, fullPath, component?, children?, redirectTo?,
loadChildren?, guards?, data?, isRoot?`.  The `data` record is never read
by any of the operations verified here and is omitted.  An absent
`children`/`guards` array and a present empty one are indistinguishable to
every consumer in the sources (all access is guarded by
`x && x.length > 0` or `!x || x.length === 0`), so both are modelled as
the empty list.  An absent `isRoot` is modelled as `false`. -/

inductive Route : Type where
  | mk (path fullPath : String) (component : Option String)
       (redirectTo : Option String) (loadChildren : Option String)
       (guards : List String) (children : List Route) (isRoot : Bool)

def Route.path : Route → String
  | .mk p _ _ _ _ _ _ _ => p

def Route.fullPath : Route → String
  | .mk _ fp _ _ _ _ _ _ => fp

def Route.component : Route → Option String
  | .mk _ _ c _ _ _ _ _ => c

def Route.redirectTo : Route → Option String
  | .mk _ _ _ rt _ _ _ _ => rt

def Route.loadChildren : Route → Option String
  | .mk _ _ _ _ lc _ _ _ => lc

def Route.guards : Route → List String
  | .mk _ _ _ _ _ g _ _ => g

def Route.children : Route → List Route
  | .mk _ _ _ _ _ _ ch _ => ch

def Route.isRoot : Route → Bool
  | .mk _ _ _ _ _ _ _ ir => ir

/-! ### The Route Collection (angular-analyzer.ts `addRouteToCollection`, lines 433-518)

The original mutates `this.routes` with `findIndex` + in-place assignment;
here the same first-match-replace-or-keep step is expressed by
`updateByPath` / `updateByComponent`, which return `none` exactly when
`findIndex` returns `-1` and otherwise the updated list. -/

/-- The information-free filter at the top of `addRouteToCollection`:
`!pr.component && !pr.loadChildren && !pr.redirectTo &&
 (!pr.children || pr.children.length === 0) && pr.path === ""`. -/
def routeInfoFree (pr : Route) : Bool :=
  !truthy pr.component && !truthy pr.loadChildren && !truthy pr.redirectTo &&
    pr.children.isEmpty && (pr.path == "")

/-- The `updateReason` chain of lines 461-467: the new route supplies a
component, loadChildren or redirectTo that the existing entry lacks. -/
def updateReason (existing pr : Route) : Bool :=
  (truthy pr.component && !truthy existing.component) ||
  (truthy pr.loadChildren && !truthy existing.loadChildren) ||
  (truthy pr.redirectTo && !truthy existing.redirectTo)

/-- Find the first entry sharing `pr.fullPath`; if found, replace it by `pr`
when `updateReason` holds, otherwise keep it (lines 455-476). -/
def updateByPath (pr : Route) : List Route → Option (List Route)
  | [] => none
  | r :: rest =>
    if r.fullPath = pr.fullPath then
      some ((if updateReason r pr then pr else r) :: rest)
    else
      (updateByPath pr rest).map (r :: ·)

/-- Line 479: `r.component && pr.component && r.component === pr.component`. -/
def componentMatches (r pr : Route) : Bool :=
  truthy r.component && truthy pr.component && (r.component == pr.component)

/-- Lines 483-486: replace the same-component entry when the new fullPath is
longer, or the old entry is a `**` catch-all superseded by real content. -/
def componentReplaceCond (existing pr : Route) : Bool :=
  decide (pr.fullPath.length > existing.fullPath.length) ||
  ((existing.path == "**") && (truthy pr.component || truthy pr.loadChildren))

/-- Find the first entry with the same (truthy) component; replace it by `pr`
when `componentReplaceCond` holds, otherwise keep it (lines 478-493). -/
def updateByComponent (pr : Route) : List Route → Option (List Route)
  | [] => none
  | r :: rest =>
    if componentMatches r pr then
      some ((if componentReplaceCond r pr then pr else r) :: rest)
    else
      (updateByComponent pr rest).map (r :: ·)

/-- The structural-duplicate test of lines 495-513. -/
def trulyDuplicateWith (r pr : Route) : Bool :=
  (r.fullPath == pr.fullPath) &&
    (componentMatches r pr ||
     (truthy r.loadChildren && truthy pr.loadChildren && (r.loadChildren == pr.loadChildren)) ||
     (truthy r.redirectTo && truthy pr.redirectTo && (r.redirectTo == pr.redirectTo)) ||
     (!truthy r.component && !truthy pr.component && !truthy r.loadChildren &&
      !truthy pr.loadChildren && !truthy r.redirectTo && !truthy pr.redirectTo &&
      !r.children.isEmpty && !pr.children.isEmpty))

/-- The Route Collection `add` operation (`addRouteToCollection`,
angular-analyzer.ts lines 433-518). -/
def addRouteToCollection (routes : List Route) (pr : Route) : List Route :=
  if routeInfoFree pr then routes
  else
    match updateByPath pr routes with
    | some routes2 => routes2
    | none =>
      match updateByComponent pr routes with
      | some routes2 => routes2
      | none =>
        if routes.any (fun r => trulyDuplicateWith r pr) then routes
        else routes ++ [pr]

/-! ### Route declarations and the Route Resolver

A `RouteDecl` models one object literal of an Angular route array after
property extraction (`parseRouteObject`, lines 563-605): `path` is present
exactly when the object carries a string-literal `path` property,
`component` the identifier text (or the name derived by `loadComponent`
handling), `loadChildren` the resolved import-target literal, `redirectTo`
the string literal, `guards` the `canActivate` element texts, and
`children` the nested array when present (`none` = no `children`
property; `some []` = a present but empty array, which the discard check
of lines 607-618 treats as present).

The `processedRouteObjects` node memo of `parseRouteArray` (lines 529-531)
only suppresses re-parsing of an already-visited syntax node; in a single
pass over distinct declaration nodes, as modelled here, it never fires and
is omitted.  Deferred (`loadChildren`) expansion is modelled separately
for the lazy-loading claims. -/

inductive RouteDecl : Type where
  | mk (path : Option String) (component : Option String)
       (loadChildren : Option String) (redirectTo : Option String)
       (guards : List String) (children : Option (List RouteDecl))

/-- `this.routes.some((r) => r.isRoot)` (line 625). -/
def hasRootRoute (routes : List Route) : Bool :=
  routes.any (fun r => r.isRoot)

/-- The fullPath computation of `parseRouteObject` (lines 622-642): the raw
join of parent context and path segment, then the normalisation pass. -/
def joinChildPath (parent path : String) : String :=
  normalizeSlashes
    (if parent = "/" ∧ path = "" then "/"
     else if parent = "/" then "/" ++ path
     else if path = "" then parent
     else parent ++ "/" ++ path)

/-- Lines 623-627: the first route resolved at parent `/` with an empty
path segment is flagged as the root route, provided the collection does not
already hold one. -/
def rootFlagOf (parent pathSeg : String) (st : List Route) : Bool :=
  if parent = "/" ∧ pathSeg = "" then !hasRootRoute st else false

mutual
/-- The body of `parseRouteObject` (angular-analyzer.ts lines 558-690):
discard property-free objects, default a missing path to `""`, compute and
normalise `fullPath` from the parent context, flag the first root route,
assign the truthy properties, and recursively parse + add `children`
using the just-computed `fullPath` as the new parent context.  Returns the
parsed route (if any) together with the updated collection (children are
added to the collection inside this call, the route itself by the caller). -/
def parseRouteObject (parent : String) (st : List Route) :
    RouteDecl → Option Route × List Route
  | .mk path? comp lc rt gs ch? =>
    match (match path? with
           | some s => some s
           | none =>
             if comp.isNone ∧ ch?.isNone ∧ lc.isNone ∧ rt.isNone then none
             else some "") with
    | none => (none, st)
    | some pathSeg =>
      match ch? with
      | none =>
        (some (.mk pathSeg (joinChildPath parent pathSeg)
          (if truthy comp then comp else none)
          (if truthy rt then rt else none)
          (if truthy lc then lc else none) gs []
          (rootFlagOf parent pathSeg st)), st)
      | some cs =>
        (some (.mk pathSeg (joinChildPath parent pathSeg)
          (if truthy comp then comp else none)
          (if truthy rt then rt else none)
          (if truthy lc then lc else none) gs
          (parseRouteArray (joinChildPath parent pathSeg) st cs).1
          (rootFlagOf parent pathSeg st)),
         (parseRouteArray (joinChildPath parent pathSeg) st cs).1.foldl
           addRouteToCollection
           (parseRouteArray (joinChildPath parent pathSeg) st cs).2)

/-- The element loop of `parseRouteArray` (lines 520-556), without the
lazy-load trigger: parse each object, collect the parsed routes. -/
def parseRouteArray (parent : String) (st : List Route) :
    List RouteDecl → List Route × List Route
  | [] => ([], st)
  | d :: ds =>
    ((match (parseRouteObject parent st d).1 with
      | some r => [r]
      | none => []) ++
        (parseRouteArray parent (parseRouteObject parent st d).2 ds).1,
     (parseRouteArray parent (parseRouteObject parent st d).2 ds).2)
end

/-- `processRouteArrayLiteral` (lines 409-431): parse the whole array, then
add every parsed top-level route to the collection. -/
def processRouteArrayLiteral (decls : List RouteDecl) (parent : String)
    (st : List Route) : List Route :=
  (parseRouteArray parent st decls).1.foldl addRouteToCollection
    (parseRouteArray parent st decls).2

/-- A full declarative analysis run: process one top-level route array with
the initial parent context `/` and an empty collection. -/
def runAnalyzer (decls : List RouteDecl) : List Route :=
  processRouteArrayLiteral decls "/" []

/-! ### Navigation flows (src/core/types.ts `NavigationFlow`) -/

inductive FlowType : Type where
  | static
  | dynamic
  | guard
  | redirect
  | hierarchy
deriving DecidableEq

structure NavFlow where
  fromRef : String
  toPath : String
  ftype : FlowType
  label : Option String := none

/-! ### The imperative Navigation Flow Extractor
(`parseNavigationCall`, angular-analyzer.ts lines 1020-1113)

The first argument of a `router.navigate`/`navigateByUrl` call is either a
string literal, an array literal, or something else.  Array elements are
string literals (`NavSeg.lit`) or arbitrary expressions with source text
`t` (`NavSeg.expr t`). -/

inductive NavSeg : Type where
  | lit (s : String)
  | expr (t : String)

inductive NavArg : Type where
  | segs (l : List NavSeg)
  | strLit (s : String)
  | other

/-- JavaScript `String.prototype.toLowerCase` (character-wise; the paths
and expression texts in scope are ASCII). -/
def strToLower (s : String) : String :=
  ⟨s.data.map Char.toLower⟩

/-- JavaScript `elText.replace(nonWordRegex, "")` (line 1046): strip every
character that is not an ASCII letter, digit or underscore. -/
def slugify (t : String) : String :=
  ⟨t.data.filter (fun c => c.isAlpha || c.isDigit || c == '_')⟩

/-- Lines 1041-1048: a string-literal segment is kept verbatim; any other
expression becomes `:id` when its lowercased source text contains `id`,
else `:` followed by the slugified expression text. -/
def mapSeg : NavSeg → String
  | .lit s => s
  | .expr t => if strIncludes (strToLower t) "id" then ":id" else ":" ++ slugify t

/-- JavaScript `s.endsWith(suf)`. -/
def strEnds (s suf : String) : Bool :=
  startsWithList suf.data.reverse s.data.reverse

/-- Line 1065: `s.replace(edgeSlashRegex, "")` strips leading and trailing
runs of slashes. -/
def trimSlashes (s : String) : String :=
  ⟨((s.data.dropWhile (· == '/')).reverse.dropWhile (· == '/')).reverse⟩

/-- JavaScript `Array.prototype.join(sep)`. -/
def joinWith (sep : String) : List String → String
  | [] => ""
  | s :: rest => rest.foldl (fun a x => a ++ sep ++ x) s

/-- The absolute-path accumulation loop of lines 1053-1062. -/
def buildAbs (b : String) (segs : List String) : String :=
  segs.foldl (fun acc s =>
    (if strEnds acc "/" then acc else acc ++ "/") ++
      (if strStarts s "/" then (⟨s.data.drop 1⟩ : String) else s)) b

/-- Lines 1036-1070: build the target path from the (already mapped)
segment strings; an empty array leaves the target undefined. -/
def buildNavTarget (segments : List String) : Option String :=
  match segments with
  | [] => none
  | s0 :: rest =>
    some ⟨collapseSlashes
      (if strStarts s0 "/" then buildAbs s0 rest
       else joinWith "/" (((s0 :: rest).map trimSlashes).filter (fun s => s != ""))).data⟩

/-- Splits a character list at every occurrence of `sep`, keeping empty
pieces, exactly like JavaScript `String.prototype.split` with a
single-character separator. -/
def splitOnChar (sep : Char) (l : List Char) : List (List Char) :=
  l.foldr (fun c acc =>
    match acc with
    | [] => [[c]]
    | cur :: rest => if c == sep then [] :: cur :: rest else (c :: cur) :: rest) [[]]

/-- The nonempty `/`-separated segments of a path, JavaScript
`path.split("/").filter(Boolean)`. -/
def strSegments (s : String) : List String :=
  ((splitOnChar '/' s.data).map (fun l => (⟨l⟩ : String))).filter (fun x => x != "")

/-- Dot-segment elimination used by URL path resolution. -/
def removeDotSegments (segs : List String) : List String :=
  segs.foldl (fun acc s =>
    if s = "." then acc
    else if s = ".." then acc.dropLast
    else acc ++ [s]) []

/-- Model of `new URL(rel, "http://dummy.com" + base).pathname` as used in
lines 1094-1100 for a plain relative path `rel` (no scheme, query or
fragment, not starting with `/`): drop the base path's last segment, append
the segments of `rel`, eliminate dot segments.  The `rel = ""` corner (the
WHATWG parser would return the base path unchanged) is not separated out
because no verified property exercises it. -/
def urlResolvePath (basePath rel : String) : String :=
  let ensured := if strStarts basePath "/" then basePath else "/" ++ basePath
  let merged := (strSegments ensured).dropLast ++ strSegments rel
  "/" ++ joinWith "/" (removeDotSegments merged)

/-- The body of `parseNavigationCall` (lines 1020-1113): build the target
from the first argument (string literal, or mapped array segments), resolve
a relative target against the fullPath of the first collection route whose
component equals the enclosing class name, and emit a `dynamic` flow.  A
missing or empty array first argument yields no flow.  `fromCtx` stands for
the enclosing class name (or the file-name-derived fallback of lines
1083-1087). -/
def navTargetOf (arg : NavArg) : Option String :=
  match arg with
  | .segs l => buildNavTarget (l.map mapSeg)
  | .strLit s => some s
  | .other => none

/-- Lines 1089-1107: a relative target is resolved against the fullPath of
the first collection route whose component equals the enclosing class
name, when such a route with a truthy fullPath exists. -/
def resolveNavTarget (routes : List Route) (fromCtx tp : String) : String :=
  if strStarts tp "/" then tp
  else
    match routes.find? (fun r => r.component == some fromCtx) with
    | some cr => if cr.fullPath != "" then urlResolvePath cr.fullPath tp else tp
    | none => tp

def parseNavigationCall (routes : List Route) (fromCtx : String) (arg : NavArg) :
    Option NavFlow :=
  match navTargetOf arg with
  | none => none
  | some tp => some ⟨fromCtx, resolveNavTarget routes fromCtx tp, .dynamic, none⟩

/-! ### The Graph Assembler
(second `DotGenerator` of dot-generator.ts: `convertAnalysisToGraphData`
lines 837-987 and the edge resolution of `createGraph` lines 763-835) -/

structure RouteNodeT where
  id : String
  originalPath : String
  displayName : String
  pathDepth : Nat
  category : String
  component : Option String
  importance : Nat
  guards : List String

structure FlowEdgeT where
  source : String
  target : String
  ftype : FlowType
  label : Option String := none

/-- Insertion-ordered string-keyed map, modelling a JavaScript `Map`:
`set` overwrites the value of an existing key in place, otherwise appends. -/
def mapSet {α : Type} (m : List (String × α)) (k : String) (v : α) :
    List (String × α) :=
  if m.any (fun p => p.1 == k) then
    m.map (fun p => if p.1 == k then (k, v) else p)
  else m ++ [(k, v)]

/-- JavaScript `Map.prototype.get`. -/
def mapGet {α : Type} (m : List (String × α)) (k : String) : Option α :=
  (m.find? (fun p => p.1 == k)).map (·.2)

/-- `cleanRoutePath` (dot-generator.ts line 1078): in each match of a colon
followed by one or more non-slash characters, drop the colon.  The Boolean
state records whether the scan is inside such a parameter run (a greedy run
of non-slash characters, exactly as the regex consumes it). -/
def cleanAux : Bool → List Char → List Char
  | _, [] => []
  | true, c :: rest =>
    if c != '/' then c :: cleanAux true rest else c :: cleanAux false rest
  | false, ':' :: rest =>
    match rest with
    | c :: _ => if c != '/' then cleanAux true rest else ':' :: cleanAux false rest
    | [] => [':']
  | false, c :: rest => c :: cleanAux false rest

def cleanRoutePath (s : String) : String :=
  ⟨cleanAux false s.data⟩

/-- `getNodeCategory` (line 1082): the lowercased first nonempty segment,
or `root`. -/
def getNodeCategory (path : String) : String :=
  match strSegments path with
  | [] => "root"
  | s :: _ => strToLower s

/-- `.replace(componentSuffixRegex, "")` — strip one trailing `Component`. -/
def stripComponentSuffix (s : String) : String :=
  if strEnds s "Component" then ⟨s.data.take (s.data.length - 9)⟩ else s

/-- `.replace(capitalRegex, " $1")` — a space before every ASCII capital. -/
def spaceCaps (l : List Char) : List Char :=
  l.foldr (fun c acc => if c.isUpper then ' ' :: c :: acc else c :: acc) []

/-- `.replace(firstCharRegex, (str) => str.toUpperCase())`. -/
def upperFirst : List Char → List Char
  | [] => []
  | c :: t => c.toUpper :: t

/-- JavaScript `String.prototype.trim` (only spaces arise here). -/
def jsTrim (s : String) : String :=
  ⟨((s.data.dropWhile (· == ' ')).reverse.dropWhile (· == ' ')).reverse⟩

/-- The component display name of lines 857-861. -/
def componentDisplayName (comp : String) : String :=
  jsTrim ⟨upperFirst (spaceCaps (stripComponentSuffix comp).data)⟩

/-- JavaScript split at `-` or `_`, keeping empty pieces. -/
def splitDashUnderscore (l : List Char) : List (List Char) :=
  l.foldr (fun c acc =>
    match acc with
    | [] => [[c]]
    | cur :: rest => if c == '-' || c == '_' then [] :: cur :: rest else (c :: cur) :: rest) [[]]

/-- `deriveDisplayName` (lines 1088-1100). -/
def deriveDisplayName (seg : String) : String :=
  if seg = "" ∨ seg = "/" then "Segment"
  else
    let l := match seg.data with
      | c :: t => if c == ':' || c == '*' then t else c :: t
      | [] => []
    joinWith " "
      ((splitDashUnderscore l).map (fun p => (⟨upperFirst p⟩ : String)))

/-- The display-name selection of lines 853-866. -/
def displayNameOf (r : Route) : String :=
  if r.fullPath = "/" then "Root"
  else match r.component with
    | some c => if c != "" then componentDisplayName c else fallbackName r
    | none => fallbackName r
where
  fallbackName (r : Route) : String :=
    deriveDisplayName ((strSegments r.fullPath).getLast?.getD "")

/-- One `RouteNode` built from a Route (lines 849-877). -/
def buildNode (r : Route) : RouteNodeT :=
  { id := cleanRoutePath r.fullPath
    originalPath := r.fullPath
    displayName := displayNameOf r
    pathDepth := (strSegments r.fullPath).length
    category := getNodeCategory r.fullPath
    component := r.component
    importance := 0
    guards := r.guards }

/-- The characters of a path up to and including its last slash; empty when
the path has no slash.  This is
`s.substring(0, s.lastIndexOf("/") + 1)`. -/
def takeToLastSlash (l : List Char) : List Char :=
  (l.reverse.dropWhile (fun c => c != '/')).reverse

/-- `route.fullPath.substring(0, route.fullPath.lastIndexOf("/") + 1) || "/"`. -/
def parentDirOf (s : String) : String :=
  let t : String := ⟨takeToLastSlash s.data⟩
  if t = "" then "/" else t

/-- Model of Node's `path.posix.resolve(base, rel)` for an absolute `base`
and a relative `rel`: join, drop empty and `.` segments, resolve `..`,
prefix `/`.  The subsequent `.replace(backslashRegex, "/")` of the source
is a no-op on slash-separated paths and is omitted. -/
def posixResolve (base rel : String) : String :=
  let segs := strSegments (base ++ "/" ++ rel)
  let stack := segs.foldl (fun acc s =>
    if s = "." then acc
    else if s = ".." then acc.dropLast
    else acc ++ [s]) ([] : List String)
  "/" ++ joinWith "/" stack

/-- The target post-processing applied to redirect and flow targets
(lines 891-894 / 960-963): one collapse pass, then strip a trailing slash
unless the result is exactly `/`. -/
def finishTarget (t : String) : String :=
  ⟨stripTrail (collapseSlashes t.data)⟩

/-- The redirect edge of a route, if any (lines 880-901): a truthy
`redirectTo` is resolved against the owning route's parent directory when
relative, post-processed, and emitted unconditionally (no target-node
lookup in this generator). -/
def redirectEdgeOf (r : Route) : List FlowEdgeT :=
  match r.redirectTo with
  | some t0 =>
    if t0 != "" then
      let t1 := if strStarts t0 "/" then t0 else posixResolve (parentDirOf r.fullPath) t0
      [{ source := r.fullPath, target := finishTarget t1, ftype := .redirect }]
    else []
  | none => []

/-- The route loop of `convertAnalysisToGraphData` (lines 845-901): skip
routes with an empty fullPath and wildcard (`**`) routes; key each node by
`fullPath`; collect redirect edges. -/
def convertStep (acc : List (String × RouteNodeT) × List FlowEdgeT)
    (r : Route) : List (String × RouteNodeT) × List FlowEdgeT :=
  if r.fullPath == "" then acc
  else if strIncludes r.fullPath "**" then acc
  else (mapSet acc.1 r.fullPath (buildNode r), acc.2 ++ redirectEdgeOf r)

def convertRoutes (routes : List Route) :
    List (String × RouteNodeT) × List FlowEdgeT :=
  routes.foldl convertStep ([], [])

/-- Model of Node's `path.dirname` (posix): scan from the end for the last
slash that is followed by a non-slash character, searching indices down
to 1. -/
def dirFind (l : List Char) : Bool → Nat → Option Nat
  | _, 0 => none
  | ms, i + 1 =>
    match l.get? (i + 1) with
    | some c =>
      if c == '/' then
        if ms then dirFind l ms i else some (i + 1)
      else dirFind l false i
    | none => dirFind l ms i

def nodeDirname (s : String) : String :=
  let l := s.data
  if l.isEmpty then "."
  else
    let hasRoot := l.head? == some '/'
    match dirFind l true (l.length - 1) with
    | none => if hasRoot then "/" else "."
    | some e => if hasRoot && e == 1 then "//" else ⟨l.take e⟩

/-- The parent-child loop of lines 904-921: for every node other than `/`,
normalise its `dirname`; when a node exists at that parent path, emit a
`hierarchy` edge from parent to child. -/
def hierarchyEdges (nodes : List (String × RouteNodeT)) : List FlowEdgeT :=
  nodes.foldl (fun acc p =>
    let routePath := p.1
    if routePath = "/" then acc
    else
      let p1 := nodeDirname routePath
      let p2 := if p1 = "." then "/" else p1
      let p3 := if p2 ≠ "/" ∧ strEnds p2 "/" then (⟨p2.data.dropLast⟩ : String) else p2
      let p4 := if p3 = "" then "/" else p3
      if (nodes.any (fun q => q.1 == p4)) ∧ p4 ≠ routePath then
        acc ++ [{ source := p4, target := routePath, ftype := .hierarchy }]
      else acc) []

/-- The component-to-route map of lines 924-933: every node's truthy
component maps to its route path, and so does the name with a trailing
`Component` stripped when that differs. -/
def componentToRoute (nodes : List (String × RouteNodeT)) :
    List (String × String) :=
  nodes.foldl (fun m p =>
    match p.2.component with
    | some comp =>
      if comp != "" then
        let m1 := mapSet m comp p.1
        let baseName := stripComponentSuffix comp
        if baseName ≠ comp then mapSet m1 baseName p.1 else m1
      else m
    | none => m) []

/-- The navigation-flow loop of lines 935-984: map `from` to a route path by
component identity (exact, then suffix-stripped, then a literal `/...`
source), resolve a relative target against the source's parent directory
(or root it), post-process the target, attach the target route's guards as
a label on `dynamic` flows, and keep the edge when the source is a known
node and the target nonempty. -/
def flowEdgesOf (nodes : List (String × RouteNodeT))
    (cmap : List (String × String)) (flows : List NavFlow) : List FlowEdgeT :=
  flows.foldl (fun acc flow =>
    if flow.fromRef == "" || flow.toPath == "" then acc
    else
      let sp0 := mapGet cmap flow.fromRef
      let sp1 := match sp0 with
        | some v => some v
        | none => mapGet cmap (stripComponentSuffix flow.fromRef)
      let sourcePath? := match sp1 with
        | some v => some v
        | none => if strStarts flow.fromRef "/" then some flow.fromRef else none
      let t1 :=
        if strStarts flow.toPath "/" then flow.toPath
        else match sourcePath? with
          | some sp => posixResolve (parentDirOf sp) flow.toPath
          | none => "/" ++ flow.toPath
      let t2 := finishTarget t1
      let label : Option String :=
        if flow.ftype = .dynamic then
          match mapGet nodes t2 with
          | some n =>
            if ¬ n.guards.isEmpty then some (joinWith ", " n.guards) else none
          | none => none
        else none
      match sourcePath? with
      | some sp =>
        if (nodes.any (fun q => q.1 == sp)) ∧ t2 ≠ "" then
          acc ++ [{ source := sp, target := t2, ftype := flow.ftype, label := label }]
        else acc
      | none => acc) []

structure GraphData where
  routeNodes : List (String × RouteNodeT)
  flowEdges : List FlowEdgeT

/-- `convertAnalysisToGraphData` (lines 837-987). -/
def convertAnalysisToGraphData (routes : List Route) (flows : List NavFlow) :
    GraphData :=
  let nr := convertRoutes routes
  let hier := hierarchyEdges nr.1
  let cmap := componentToRoute nr.1
  ⟨nr.1, nr.2 ++ hier ++ flowEdgesOf nr.1 cmap flows⟩

/-! ### Parameterised target matching in `createGraph` (lines 806-832)

The generator builds, from a candidate node's `originalPath`, the regular
expression obtained by replacing every maximal `:param` run (a colon
followed by one or more characters that are neither slash nor backslash) by
a wildcard matching one or more non-slash characters, anchors it at both
ends, and tests the concrete target.  `compilePattern`/`matchToks`
implement exactly that for paths whose remaining characters carry no other
regex metacharacters (true of every route path in scope). -/

inductive PatTok : Type where
  | lit (c : Char)
  | wild

/-- Pattern compilation: the Boolean state records whether the scan is
inside a (greedy) parameter run of characters that are neither slash nor
backslash. -/
def compileAux : Bool → List Char → List PatTok
  | _, [] => []
  | true, c :: rest =>
    if c != '/' && c != '\\' then compileAux true rest
    else .lit c :: compileAux false rest
  | false, ':' :: rest =>
    match rest with
    | c :: _ =>
      if c != '/' && c != '\\' then .wild :: compileAux true rest
      else .lit ':' :: compileAux false rest
    | [] => [.lit ':']
  | false, c :: rest => .lit c :: compileAux false rest

def compilePattern (l : List Char) : List PatTok :=
  compileAux false l

/-- Anchored matching of a compiled pattern: a `lit` consumes one equal
character, a `wild` one or more non-slash characters.  The fuel argument
only bounds the recursion (each step shortens pattern + target, so
`pattern length + target length + 1` always suffices). -/
def matchToksF : Nat → List PatTok → List Char → Bool
  | 0, _, _ => false
  | _ + 1, [], t => t.isEmpty
  | _ + 1, .lit _ :: _, [] => false
  | f + 1, .lit c :: p, d :: t => c == d && matchToksF f p t
  | _ + 1, .wild :: _, [] => false
  | f + 1, .wild :: p, d :: t =>
    (d != '/') && (matchToksF f p t || matchToksF f (.wild :: p) t)

def paramPathMatches (originalPath target : String) : Bool :=
  matchToksF (originalPath.length + target.length + 1)
    (compilePattern originalPath.data) target.data

structure ResolvedEdge where
  sourceId : String
  targetId : String
  ftype : FlowType
  label : Option String

/-- The first node whose parameterised original path matches the target. -/
def findParamTarget (nodes : List (String × RouteNodeT)) (target : String) :
    Option RouteNodeT :=
  (nodes.find? (fun p => paramPathMatches p.2.originalPath target)).map (·.2)

/-- The edge-resolution loop of `createGraph` (lines 805-832): resolve the
source by key, the target by key and then by parameterised matching, and
deduplicate by (source id, target id, type, truthy label). -/
def resolveGraphEdges (g : GraphData) : List ResolvedEdge :=
  (g.flowEdges.foldl
    (fun (acc : List ResolvedEdge × List (String × String × FlowType × Option String)) e =>
      let src? := mapGet g.routeNodes e.source
      let tgt? := match mapGet g.routeNodes e.target with
        | some n => some n
        | none => if e.target ≠ "" then findParamTarget g.routeNodes e.target else none
      match src?, tgt? with
      | some sn, some tn =>
        let key := (sn.id, tn.id, e.ftype, if truthy e.label then e.label else none)
        if acc.2.any (fun k => decide (k = key)) then acc
        else (acc.1 ++ [⟨sn.id, tn.id, e.ftype, e.label⟩], acc.2 ++ [key])
      | _, _ => acc) ([], [])).1

/-! ### The React analyzer's route collection
(react-analyzer.ts `addRoute`, lines 714-735, and
`addHierarchicalFlows`, lines 1573-1599) -/

structure ReactRouteConfig where
  path : String
  component : Option String
  element : Option String
  guards : List String := []

structure ReactState where
  routes : List Route
  routeComponents : List String

/-- JavaScript `routeConfig.component || routeConfig.element`. -/
def reactComp (rc : ReactRouteConfig) : Option String :=
  if truthy rc.component then rc.component else rc.element

/-- Lines 717-719: root the path with `/` when relative. -/
def reactFullPath (rc : ReactRouteConfig) : String :=
  if strStarts rc.path "/" then rc.path else "/" ++ rc.path

/-- The Route built at lines 715-722. -/
def reactRouteOf (rc : ReactRouteConfig) : Route :=
  .mk rc.path (reactFullPath rc) (reactComp rc) none none rc.guards [] false

/-- `this.routeComponents.add(route.component)` guarded by truthiness
(lines 731-733); the `Set` is modelled as an insertion-ordered
duplicate-free list. -/
def reactComponentsAdd (l : List String) : Option String → List String
  | some c =>
    if c != "" then
      if l.any (fun x => x == c) then l else l ++ [c]
    else l
  | none => l

/-- `addRoute` (react-analyzer.ts lines 714-735): build the route (rooting
the path with `/` when relative, component falling back to `element`),
skip it when an entry with the same `fullPath` and `component` exists,
otherwise append it and record the truthy component. -/
def reactAddRoute (st : ReactState) (rc : ReactRouteConfig) : ReactState :=
  if st.routes.any (fun r =>
      r.fullPath == reactFullPath rc && r.component == reactComp rc) then st
  else
    { routes := st.routes ++ [reactRouteOf rc]
      routeComponents := reactComponentsAdd st.routeComponents (reactComp rc) }

/-- Invariant of the React route collection: every stored fullPath starts
with `/`, no stored route carries isRoot (the Route literal at lines
715-722 never sets it), and no two entries agree on both fullPath and
component (the duplicate check at lines 724-727 tests the pair jointly,
so duplicate fullPaths with distinct components may coexist). -/
def reactGoodState (st : ReactState) : Prop :=
  (∀ r ∈ st.routes, strStarts r.fullPath "/" = true ∧ r.isRoot = false) ∧
  st.routes.Pairwise
    (fun a b => a.fullPath ≠ b.fullPath ∨ a.component ≠ b.component)

/-- Stable insertion used to model the (stable) JavaScript sort by
`fullPath.length` in `addHierarchicalFlows`. -/
def insertByLen (r : Route) : List Route → List Route
  | [] => [r]
  | x :: xs =>
    if x.fullPath.length ≤ r.fullPath.length then x :: insertByLen r xs
    else r :: x :: xs

/-- The scan of `addHierarchicalFlows` (lines 1579-1598): for each route in
length order, the nearest earlier route whose path plus `/` is a proper
path-prefix (and is not `/` itself) contributes one hierarchy flow. -/
def hierFlowsAux (prevRev : List Route) : List Route → List NavFlow
  | [] => []
  | r :: rest =>
    (match prevRev.find? (fun p =>
        strStarts r.fullPath (p.fullPath ++ "/") && p.fullPath != "/") with
     | some p => [{ fromRef := p.fullPath, toPath := r.fullPath, ftype := .hierarchy }]
     | none => []) ++ hierFlowsAux (r :: prevRev) rest

/-- `addHierarchicalFlows` (react-analyzer.ts lines 1573-1599). -/
def addHierarchicalFlows (routes : List Route) : List NavFlow :=
  hierFlowsAux [] (routes.foldl (fun acc r => insertByLen r acc) [])

/-! ### Deferred (lazy) module expansion
(`loadAndParseLazyModule`, angular-analyzer.ts lines 802-930, together with
the `processedRouteObjects` node memo of `parseRouteArray`, lines 529-538)

Execution is modelled synchronously, as prescribed by the specification's
concurrency section: a deferred-module resolution re-enters the Route
Resolver before returning control.  A module graph is a list of modules
(numbered; the target resolution of lines 815-884 is abstracted into a
lookup, `none` modelling an unresolved file).  Each declaration is
identified by its (module, index) position, standing for the identity of
its syntax-tree node in `processedRouteObjects`.

Two details of the source are essential and preserved exactly:
  * the `(target, parent fullPath)` signature is checked against
    `processedLazyLoads` on entry (line 811) but added only after the
    recursive `analyzeRoutingModules` call has returned (line 929), and
    not at all when the target file cannot be resolved (lines 875-880);
  * an already-visited declaration node is skipped (lines 529-531).

`expansions` is a ghost log recording each performed expansion, i.e. each
recursive analysis of a resolved module for a given parent context; it is
what the at-most-once claim counts.  `fuel` bounds the recursion depth;
every verified run uses enough fuel for the trace to complete. -/

structure LazyDecl where
  path : String
  component : Option String
  loadChildren : Option Nat

structure LazyState where
  processedNodes : List (Nat × Nat)
  processedLazy : List (Nat × String)
  expansions : List (Nat × String)

/-- A pending task of the synchronous lazy-resolution trace: either the
element loop of `parseRouteArray` over the declarations of module `m`
(restricted to what drives lazy expansion), or a `loadAndParseLazyModule`
call for a target module under a parent context. -/
inductive LazyCall : Type where
  | parseArr (m : Nat) (parent : String) (i : Nat) (ds : List LazyDecl)
  | load (tgt : Nat) (parent : String)

/-- Recording of the `(target, parent)` signature after an expansion has
completed (line 929); `Set.prototype.add` leaves an already-present member
alone. -/
def lazyFinish (tgt : Nat) (parent : String) (st : LazyState) : LazyState :=
  { st with
    processedLazy :=
      if st.processedLazy.any (fun p => decide (p = (tgt, parent))) then
        st.processedLazy
      else st.processedLazy ++ [(tgt, parent)] }

/-- One synchronous execution of the resolver trace.  `parseArr` skips
already-processed declaration nodes, marks fresh ones, and fires `load`
for each `loadChildren` target with the child's computed fullPath
(lines 540-550).  `load` returns immediately when the `(target, parent)`
signature is already memoised (line 811), returns without memoising when
the target does not resolve (lines 875-880), and otherwise logs the
expansion, recursively analyses the target module under the parent context,
and only then records the signature (line 929).  The fuel argument merely
bounds the recursion depth; every verified run carries enough fuel for its
trace to complete. -/
def lazyExec (proj : List (Nat × List LazyDecl)) : Nat → LazyCall → LazyState → LazyState
  | 0, _, st => st
  | _ + 1, .parseArr _ _ _ [], st => st
  | f + 1, .parseArr m parent i (d :: rest), st =>
    let st1 :=
      if st.processedNodes.any (fun p => decide (p = (m, i))) then st
      else
        let st0 := { st with processedNodes := st.processedNodes ++ [(m, i)] }
        match d.loadChildren with
        | some tgt => lazyExec proj f (.load tgt (joinChildPath parent d.path)) st0
        | none => st0
    lazyExec proj f (.parseArr m parent (i + 1) rest) st1
  | f + 1, .load tgt parent, st =>
    if st.processedLazy.any (fun p => decide (p = (tgt, parent))) then st
    else
      match (proj.find? (fun p => p.1 == tgt)).map (·.2) with
      | none => st
      | some ds =>
        lazyFinish tgt parent
          (lazyExec proj f (.parseArr tgt parent 0 ds)
            { st with expansions := st.expansions ++ [(tgt, parent)] })

/-- A full lazy run: analyse the root declaration array (module `0`) with
parent context `/` from a clean state. -/
def runLazy (proj : List (Nat × List LazyDecl)) (fuel : Nat)
    (rootDecls : List LazyDecl) : LazyState :=
  lazyExec proj fuel (.parseArr 0 "/" 0 rootDecls) ⟨[], [], []⟩

/-! ### Segment cleanliness (used to state the amended imperative-navigation
claim) and the concrete scenarios named by the specification -/

/-- A nonempty path segment containing no slash. -/
def cleanSeg (s : String) : Bool :=
  (s != "") && s.data.all (fun c => c != '/')

/-- A leading absolute segment: a slash followed by a nonempty slash-free
remainder. -/
def cleanAbsHead (s : String) : Bool :=
  (s.data.head? == some '/') && (s.data.tail != []) &&
    s.data.tail.all (fun c => c != '/')

/-- The per-route invariant of the amended collection claim: the fullPath
is absolute, and an isRoot flag implies fullPath `/`. -/
def goodRoute (r : Route) : Prop :=
  strStarts r.fullPath "/" = true ∧ (r.isRoot = true → r.fullPath = "/")

/-- The collection invariant: every entry is good and fullPaths are
pairwise distinct. -/
def collectionInv (l : List Route) : Prop :=
  (∀ r ∈ l, goodRoute r) ∧ l.Pairwise (fun a b => a.fullPath ≠ b.fullPath)

/-- The nested declaration of the specification's test property:
three levels `a / b / c`, each declared as a child array of the previous
level. -/
def nestedAbcDecls : List RouteDecl :=
  [.mk (some "a") (some "AComponent") none none []
    (some [.mk (some "b") (some "BComponent") none none []
      (some [.mk (some "c") (some "CComponent") none none [] none])])]

/-- The parameterised-matching scenario: a root route `about/:id` plus a
`home` route owning the navigating component. -/
def c6Routes : List Route :=
  [.mk "about/:id" "/about/:id" (some "About") none none [] [] false,
   .mk "home" "/home" (some "HomeComponent") none none [] [] false]

def c6Flows : List NavFlow :=
  [{ fromRef := "HomeComponent", toPath := "/about/123", ftype := .dynamic }]

/-- The wildcard scenario: a concrete route redirecting to the catch-all
path, the catch-all route itself, and a declarative flow to the catch-all
path. -/
def c8Routes : List Route :=
  [.mk "oops" "/oops" (some "OopsComponent") (some "/**") none [] [] false,
   .mk "**" "/**" (some "NotFoundComponent") none none [] [] false]

def c8Flows : List NavFlow :=
  [{ fromRef := "OopsComponent", toPath := "/**", ftype := .static }]

/-- A module graph whose module `1` lazily re-imports itself at an empty
child path, so that the same `(target, parent fullPath)` pair recurs during
its own expansion. -/
def c4CycleProj : List (Nat × List LazyDecl) :=
  [(1, [⟨"", none, some 1⟩])]

def c4CycleRoot : List LazyDecl :=
  [⟨"x", none, some 1⟩]

/-- A module graph where two sibling declarations point at the same module
under the same parent path: the second trigger arrives only after the first
expansion has completed. -/
def c4SibProj : List (Nat × List LazyDecl) :=
  [(1, [⟨"a", some "C", none⟩])]

def c4SibRoot : List LazyDecl :=
  [⟨"x", none, some 1⟩, ⟨"x", none, some 1⟩]

/-- The two conflicting declarations of the specification's `/settings`
merge example: one supplies a component, the other a deferred module. -/
def settingsCompRoute : Route :=
  .mk "settings" "/settings" (some "SettingsComponent") none none [] [] false

def settingsLazyRoute : Route :=
  .mk "settings" "/settings" none none (some "./settings/settings.module") [] [] false

/-! ### Properties of the slash normalisation -/

theorem noTwo_cons (a : Char) (l : List Char) :
    noTwo (a :: l) = true ↔ ((a = '/' → l.head? ≠ some '/') ∧ noTwo l = true) := by
  cases l with
  | nil => simp [noTwo]
  | cons b t =>
    simp only [noTwo, Bool.and_eq_true, Bool.not_eq_true', Bool.and_eq_false_iff,
      List.head?_cons]
    constructor
    · rintro ⟨h1, h2⟩
      refine ⟨?_, h2⟩
      intro ha hb
      rcases h1 with h | h
      · exact absurd ha (by simpa using h)
      · apply (by simpa using h : ¬ b = '/')
        injection hb
    · rintro ⟨h1, h2⟩
      refine ⟨?_, h2⟩
      by_cases ha : a = '/'
      · right
        simp only [beq_eq_false_iff_ne, ne_eq]
        intro hb
        exact h1 ha (by simp [hb])
      · left; simpa using ha

theorem noThree_tail : ∀ (a : Char) (l : List Char),
    noThree (a :: l) = true → noThree l = true
  | _, [], _ => rfl
  | _, [_], _ => rfl
  | a, b :: c :: t, h => by
    simp only [noThree, Bool.and_eq_true] at h
    cases t with
    | nil => rfl
    | cons d t' =>
      simp only [noThree, Bool.and_eq_true] at h ⊢
      exact h.2

theorem collapse_head : ∀ l : List Char, (collapseSlashes l).head? = l.head?
  | [] => rfl
  | [_] => rfl
  | c :: d :: rest => by
    simp only [collapseSlashes]
    by_cases h : (c == '/' && d == '/') = true
    · rw [if_pos h]
      have hc : c = '/' := by
        have := (Bool.and_eq_true _ _).mp h
        simpa using this.1
      simp [hc]
    · rw [if_neg h]
      simp

theorem collapse_ne_nil : ∀ l : List Char, l ≠ [] → collapseSlashes l ≠ []
  | [], h => absurd rfl h
  | [c], _ => by simp [collapseSlashes]
  | c :: d :: rest, _ => by
    simp only [collapseSlashes]
    by_cases h : (c == '/' && d == '/') = true
    · rw [if_pos h]; simp
    · rw [if_neg h]; simp

theorem collapse_of_noTwo : ∀ l : List Char, noTwo l = true → collapseSlashes l = l
  | [], _ => rfl
  | [_], _ => rfl
  | c :: d :: rest, h => by
    simp only [noTwo, Bool.and_eq_true, Bool.not_eq_true'] at h
    simp only [collapseSlashes]
    rw [if_neg (by simp [h.1])]
    exact congrArg (c :: ·) (collapse_of_noTwo (d :: rest) h.2)

theorem noTwo_collapse : ∀ l : List Char, noThree l = true → noTwo (collapseSlashes l) = true
  | [], _ => rfl
  | [_], _ => rfl
  | c :: d :: rest, h => by
    simp only [collapseSlashes]
    by_cases hcd : (c == '/' && d == '/') = true
    · rw [if_pos hcd]
      have hd : d = '/' := by
        have := (Bool.and_eq_true _ _).mp hcd
        simpa using this.2
      rw [noTwo_cons]
      have hrest : noThree rest = true :=
        noThree_tail d rest (noThree_tail c (d :: rest) h)
      refine ⟨?_, noTwo_collapse rest hrest⟩
      intro _ hhead
      rw [collapse_head] at hhead
      cases rest with
      | nil => simp at hhead
      | cons e t =>
        simp only [List.head?_cons, Option.some.injEq] at hhead
        have hc : c = '/' := by
          have := (Bool.and_eq_true _ _).mp hcd
          simpa using this.1
        simp only [noThree, Bool.and_eq_true, Bool.not_eq_true'] at h
        have := h.1
        rw [hc, hd, hhead] at this
        simp at this
    · rw [if_neg hcd]
      rw [noTwo_cons]
      constructor
      · intro hc hhead
        rw [collapse_head] at hhead
        simp only [List.head?_cons, Option.some.injEq] at hhead
        apply hcd
        simp [hc, hhead]
      · exact noTwo_collapse (d :: rest) (noThree_tail c (d :: rest) h)

theorem noTwo_dropLast : ∀ l : List Char, noTwo l = true → noTwo l.dropLast = true
  | [], _ => rfl
  | [_], _ => rfl
  | c :: d :: rest, h => by
    have heq : (c :: d :: rest).dropLast = c :: (d :: rest).dropLast := rfl
    rw [heq, noTwo_cons]
    rw [noTwo_cons] at h
    refine ⟨?_, noTwo_dropLast (d :: rest) h.2⟩
    intro hc hhead
    cases rest with
    | nil => simp [List.dropLast] at hhead
    | cons e t =>
      have : (d :: e :: t).dropLast = d :: (e :: t).dropLast := rfl
      rw [this, List.head?_cons] at hhead
      exact h.1 hc (by simpa using hhead)

theorem getLast_dropLast_noTwo : ∀ l : List Char, noTwo l = true →
    l.getLast? = some '/' → (l.dropLast).getLast? ≠ some '/'
  | [], _, hl => by simp at hl
  | [c], _, _ => by simp [List.dropLast]
  | c :: d :: rest, h, hl => by
    have heq : (c :: d :: rest).dropLast = c :: (d :: rest).dropLast := rfl
    rw [heq]
    rw [List.getLast?_cons_cons] at hl
    rw [noTwo_cons] at h
    cases hrest : (d :: rest).dropLast with
    | nil =>
      -- then rest = [], so the list is [c, d] with d = '/'; noTwo gives c ≠ '/'
      cases rest with
      | nil =>
        simp only [List.getLast?_singleton, Option.some.injEq] at hl
        simp only [List.getLast?_singleton, ne_eq, Option.some.injEq]
        intro hc
        exact h.1 hc (by simp [hl])
      | cons e t => simp [List.dropLast] at hrest
    | cons x xs =>
      rw [List.getLast?_cons_cons, ← hrest]
      exact getLast_dropLast_noTwo (d :: rest) h.2 hl

theorem stripTrail_getLast (l : List Char) (h : noTwo l = true) :
    stripTrail l = ['/'] ∨ (stripTrail l).getLast? ≠ some '/' := by
  unfold stripTrail
  by_cases hc : l ≠ ['/'] ∧ l.getLast? = some '/'
  · rw [if_pos hc]
    exact Or.inr (getLast_dropLast_noTwo l h hc.2)
  · rw [if_neg hc]
    push_neg at hc
    by_cases hl : l = ['/']
    · exact Or.inl hl
    · exact Or.inr (hc hl)

theorem stripTrail_noTwo (l : List Char) (h : noTwo l = true) :
    noTwo (stripTrail l) = true := by
  unfold stripTrail
  by_cases hc : l ≠ ['/'] ∧ l.getLast? = some '/'
  · rw [if_pos hc]; exact noTwo_dropLast l h
  · rw [if_neg hc]; exact h

theorem normalizeChars_idem (l : List Char) (h : noThree l = true) :
    normalizeChars (normalizeChars l) = normalizeChars l := by
  have h2 : noTwo (collapseSlashes l) = true := noTwo_collapse l h
  have h3 : noTwo (stripTrail (collapseSlashes l)) = true :=
    stripTrail_noTwo _ h2
  have h4 := stripTrail_getLast (collapseSlashes l) h2
  set m := stripTrail (collapseSlashes l) with hm
  unfold normalizeChars
  rw [← hm]
  by_cases hnil : m = []
  · rw [hnil]
    simp [emptyToRoot, collapseSlashes, stripTrail]
  · rw [show emptyToRoot m = m from if_neg hnil]
    have hcol : collapseSlashes m = m := collapse_of_noTwo m h3
    rw [hcol]
    rcases h4 with h4 | h4
    · rw [h4]; simp [stripTrail, emptyToRoot]
    · rw [show stripTrail m = m from if_neg (by rintro ⟨_, hx⟩; exact h4 hx)]
      exact if_neg hnil

/-! ### Projection lemmas for `Route` -/

@[simp]
theorem Route.path_mk (p fp : String) (c rt lc : Option String)
    (g : List String) (ch : List Route) (ir : Bool) :
    (Route.mk p fp c rt lc g ch ir).path = p := rfl

@[simp]
theorem Route.fullPath_mk (p fp : String) (c rt lc : Option String)
    (g : List String) (ch : List Route) (ir : Bool) :
    (Route.mk p fp c rt lc g ch ir).fullPath = fp := rfl

@[simp]
theorem Route.component_mk (p fp : String) (c rt lc : Option String)
    (g : List String) (ch : List Route) (ir : Bool) :
    (Route.mk p fp c rt lc g ch ir).component = c := rfl

@[simp]
theorem Route.redirectTo_mk (p fp : String) (c rt lc : Option String)
    (g : List String) (ch : List Route) (ir : Bool) :
    (Route.mk p fp c rt lc g ch ir).redirectTo = rt := rfl

@[simp]
theorem Route.loadChildren_mk (p fp : String) (c rt lc : Option String)
    (g : List String) (ch : List Route) (ir : Bool) :
    (Route.mk p fp c rt lc g ch ir).loadChildren = lc := rfl

@[simp]
theorem Route.guards_mk (p fp : String) (c rt lc : Option String)
    (g : List String) (ch : List Route) (ir : Bool) :
    (Route.mk p fp c rt lc g ch ir).guards = g := rfl

@[simp]
theorem Route.children_mk (p fp : String) (c rt lc : Option String)
    (g : List String) (ch : List Route) (ir : Bool) :
    (Route.mk p fp c rt lc g ch ir).children = ch := rfl

@[simp]
theorem Route.isRoot_mk (p fp : String) (c rt lc : Option String)
    (g : List String) (ch : List Route) (ir : Bool) :
    (Route.mk p fp c rt lc g ch ir).isRoot = ir := rfl

/-! ### The claims -/

/-- C3, counterexample: the normalisation step is not idempotent.  The
doubled-slash replacement is a single left-to-right pass, so with four
consecutive slashes the first application of `normalizeSlashes` leaves a
doubled slash behind and a second application still changes the string. -/
theorem c3_normalize_not_idempotent :
    normalizeSlashes (normalizeSlashes "/a////b") ≠ normalizeSlashes "/a////b" := by
  decide

/-- C3, amended: the path normalisation step is idempotent on every input
that contains no three consecutive slashes (on such inputs one collapse
pass removes every doubled slash, and the trailing-slash strip and
empty-string mapping are already stable). -/
theorem c3_normalize_idempotent_of_noThree (s : String)
    (h : noThree s.data = true) :
    normalizeSlashes (normalizeSlashes s) = normalizeSlashes s := by
  unfold normalizeSlashes
  exact congrArg (fun l => (⟨l⟩ : String)) (normalizeChars_idem s.data h)

/-- Witness for the amended C3 statement at the concrete input `/a//b`. -/
theorem c3_normalize_idempotent_witness :
    noThree ("/a//b" : String).data = true ∧
      normalizeSlashes (normalizeSlashes "/a//b") = normalizeSlashes "/a//b" :=
  ⟨by decide, c3_normalize_idempotent_of_noThree "/a//b" (by decide)⟩

/-- C5: the nested declaration producing `/a`, `/a/b`, `/a/b/c` yields
exactly three Routes (children parsed under the just-computed parent
fullPath, added innermost first), the graph assembler derives exactly two
`hierarchy` FlowEdges — `/a → /a/b` and `/a/b → /a/b/c` — and the React
analyzer's `addHierarchicalFlows` derives the same two flows. -/
theorem c5_nested_three_routes_two_hierarchy_edges :
    (runAnalyzer nestedAbcDecls).map Route.fullPath = ["/a/b/c", "/a/b", "/a"] ∧
    (runAnalyzer nestedAbcDecls).length = 3 ∧
    (convertAnalysisToGraphData (runAnalyzer nestedAbcDecls) []).flowEdges =
      [{ source := "/a/b", target := "/a/b/c", ftype := .hierarchy },
       { source := "/a", target := "/a/b", ftype := .hierarchy }] ∧
    (addHierarchicalFlows (runAnalyzer nestedAbcDecls)).map
        (fun f => (f.fromRef, f.toPath, f.ftype)) =
      [("/a", "/a/b", FlowType.hierarchy), ("/a/b", "/a/b/c", FlowType.hierarchy)] :=
  ⟨rfl, rfl, rfl, rfl⟩

/-- C6: the imperative call `['/about', '123']` from `HomeComponent` builds
the target `/about/123`; the assembler creates no node keyed `/about/123`
(its node keys are exactly `/about/:id` and `/home`), and the edge
resolution of `createGraph` resolves the flow to the `/about/:id` RouteNode
by parameterised matching — the single resolved edge targets that node's id,
`cleanRoutePath "/about/:id"`. -/
theorem c6_parameterized_target_resolution :
    parseNavigationCall c6Routes "HomeComponent" (.segs [.lit "/about", .lit "123"]) =
      some { fromRef := "HomeComponent", toPath := "/about/123", ftype := .dynamic } ∧
    (convertAnalysisToGraphData c6Routes c6Flows).routeNodes.map Prod.fst =
      ["/about/:id", "/home"] ∧
    mapGet (convertAnalysisToGraphData c6Routes c6Flows).routeNodes "/about/123" = none ∧
    resolveGraphEdges (convertAnalysisToGraphData c6Routes c6Flows) =
      [{ sourceId := "/home", targetId := cleanRoutePath "/about/:id",
         ftype := .dynamic, label := none }] :=
  ⟨rfl, rfl, rfl, rfl⟩

/-- C7: evaluation at the failing input.  The declaration
`{ path: 'home', redirectTo: '', pathMatch: 'full' }` at root is parsed
into a Route whose `redirectTo` is dropped (the assignment
`if (props["redirectTo"]) ...` treats the empty string as falsy), so the
assembler emits no redirect FlowEdge at all — the claim's single
`/home → /` redirect edge never exists. -/
theorem c7_empty_redirect_dropped :
    runAnalyzer [RouteDecl.mk (some "home") none none (some "") [] none] =
      [Route.mk "home" "/home" none none none [] [] false] ∧
    (convertAnalysisToGraphData
        (runAnalyzer [RouteDecl.mk (some "home") none none (some "") [] none])
        []).flowEdges = [] :=
  ⟨rfl, rfl⟩

/-- C2, counterexample: a declared path segment with three consecutive
slashes survives normalisation with a doubled slash, so a Route whose
fullPath contains `//` enters the collection. -/
theorem c2_doubled_slash_survives :
    runAnalyzer [RouteDecl.mk (some "a///b") (some "C") none none [] none] =
      [Route.mk "a///b" "/a//b" (some "C") none none [] [] false] ∧
    strIncludes "/a//b" "//" = true :=
  ⟨rfl, rfl⟩

/-- C1, counterexample: adding a `/settings` declaration carrying only a
deferred module after one carrying only a component replaces the entry
wholesale — the resulting single Route has `component = none`, so it does
not carry both fields. -/
theorem c1_update_replaces_wholesale :
    addRouteToCollection (addRouteToCollection [] settingsCompRoute) settingsLazyRoute =
      [settingsLazyRoute] ∧
    settingsLazyRoute.component = none ∧
    truthy settingsCompRoute.component = true :=
  ⟨rfl, rfl, rfl⟩

/-- C4, counterexample: in a cyclic module graph where module 1 re-imports
itself at the same computed parent path `/x`, the `(target, parent)` pair
`(1, "/x")` is expanded twice — the signature is recorded only after an
expansion completes, so the re-entrant trigger passes the entry check. -/
theorem c4_cyclic_same_pair_expanded_twice :
    (runLazy c4CycleProj 8 c4CycleRoot).expansions = [(1, "/x"), (1, "/x")] ∧
    List.count (1, "/x") (runLazy c4CycleProj 8 c4CycleRoot).expansions = 2 :=
  ⟨rfl, rfl⟩

/-- C9, counterexample: a navigation call whose first argument is the empty
segment list emits no NavigationFlow at all (the built target stays
undefined and `parseNavigationCall` returns null). -/
theorem c9_empty_segments_no_flow :
    parseNavigationCall [] "HomeComponent" (.segs []) = none := rfl

theorem mem_lazyFinish (tgt : Nat) (parent : String) (st : LazyState) :
    (tgt, parent) ∈ (lazyFinish tgt parent st).processedLazy := by
  unfold lazyFinish
  by_cases h : st.processedLazy.any (fun p => decide (p = (tgt, parent))) = true
  · rw [if_pos h]
    obtain ⟨x, hx, hxe⟩ := List.any_eq_true.mp h
    simpa [of_decide_eq_true hxe] using hx
  · rw [if_neg h]
    exact List.mem_append_right _ (by simp)

/-- C4, amended: the `(target, parent fullPath)` memo only blocks triggers
that arrive after a completed expansion.  Once `loadAndParseLazyModule`
finishes on a resolvable target the pair is memoised, and any later call
for a memoised pair returns the state untouched (no further expansion); in
particular two sequential sibling triggers for the same pair produce
exactly one expansion.  A pair re-triggered during its own, not yet
completed, expansion is expanded again (see the cyclic counterexample);
unbounded re-expansion is prevented by the per-declaration-node memo, not
by the pair memo. -/
theorem c4_memo_blocks_completed_expansions :
    (∀ (proj : List (Nat × List LazyDecl)) (fuel tgt : Nat) (parent : String)
        (st : LazyState) (ds : List LazyDecl),
        (proj.find? (fun p => p.1 == tgt)).map (·.2) = some ds →
        (tgt, parent) ∈ (lazyExec proj (fuel + 1) (.load tgt parent) st).processedLazy) ∧
    (∀ (proj : List (Nat × List LazyDecl)) (fuel tgt : Nat) (parent : String)
        (st : LazyState),
        (tgt, parent) ∈ st.processedLazy →
        lazyExec proj fuel (.load tgt parent) st = st) ∧
    (runLazy c4SibProj 8 c4SibRoot).expansions = [(1, "/x")] := by
  refine ⟨?_, ?_, rfl⟩
  · intro proj fuel tgt parent st ds hds
    simp only [lazyExec]
    by_cases hmem : st.processedLazy.any (fun p => decide (p = (tgt, parent))) = true
    · rw [if_pos hmem]
      obtain ⟨x, hx, hxe⟩ := List.any_eq_true.mp hmem
      simpa [of_decide_eq_true hxe] using hx
    · rw [if_neg hmem, hds]
      exact mem_lazyFinish tgt parent _
  · intro proj fuel tgt parent st h
    cases fuel with
    | zero => rfl
    | succ f =>
      simp only [lazyExec]
      rw [if_pos (List.any_eq_true.mpr ⟨(tgt, parent), h, by simp⟩)]

/-- Witness for the amended C4 statement: a completed expansion of module 1
under `/x` leaves the pair memoised, and a `load` call on a state already
carrying the signature is the identity. -/
theorem c4_memo_witness :
    (1, "/x") ∈ (lazyExec c4SibProj 4 (.load 1 "/x") ⟨[], [], []⟩).processedLazy ∧
    lazyExec c4SibProj 3 (.load 1 "/x") ⟨[], [(1, "/x")], []⟩ = ⟨[], [(1, "/x")], []⟩ :=
  ⟨c4_memo_blocks_completed_expansions.1 c4SibProj 3 1 "/x" ⟨[], [], []⟩
      [⟨"a", some "C", none⟩] rfl,
   c4_memo_blocks_completed_expansions.2.1 c4SibProj 3 1 "/x" ⟨[], [(1, "/x")], []⟩
      (by decide)⟩

theorem mapSet_keyprop {α : Type} (Q : String → Bool) (m : List (String × α))
    (k : String) (v : α) (hm : ∀ p ∈ m, Q p.1 = false) (hk : Q k = false) :
    ∀ p ∈ mapSet m k v, Q p.1 = false := by
  unfold mapSet
  by_cases h : m.any (fun p => p.1 == k) = true
  · rw [if_pos h]
    intro p hp
    obtain ⟨q, hq, hqe⟩ := List.mem_map.mp hp
    by_cases hqk : (q.1 == k) = true
    · rw [if_pos hqk] at hqe
      rw [← hqe]
      exact hk
    · rw [if_neg hqk] at hqe
      rw [← hqe]
      exact hm q hq
  · rw [if_neg h]
    intro p hp
    rcases List.mem_append.mp hp with hp | hp
    · exact hm p hp
    · rw [List.mem_singleton.mp hp]
      exact hk

theorem convert_keys_no_wildcard (routes : List Route) :
    ∀ p ∈ (convertRoutes routes).1, strIncludes p.1 "**" = false := by
  have general : ∀ (rs : List Route) (acc : List (String × RouteNodeT) × List FlowEdgeT),
      (∀ p ∈ acc.1, strIncludes p.1 "**" = false) →
      ∀ p ∈ (rs.foldl convertStep acc).1, strIncludes p.1 "**" = false := by
    intro rs
    induction rs with
    | nil => intro acc hacc; simpa using hacc
    | cons r rs ih =>
      intro acc hacc
      rw [List.foldl_cons]
      apply ih
      unfold convertStep
      by_cases h1 : (r.fullPath == "") = true
      · rw [if_pos h1]; exact hacc
      · rw [if_neg h1]
        by_cases h2 : strIncludes r.fullPath "**" = true
        · rw [if_pos h2]; exact hacc
        · rw [if_neg h2]
          exact mapSet_keyprop (fun k => strIncludes k "**") acc.1 r.fullPath
            (buildNode r) hacc (Bool.not_eq_true _ ▸ h2)
  exact general routes ([], []) (by simp)

/-- C8: for every Route whose fullPath contains the wildcard marker `**`,
the assembler creates no RouteNode keyed by that path — and yet, in the
assembled graph data, such a path can still be the target of redirect and
flow edges, as the concrete scenario shows: the wildcard route `/**` has no
node, while both a `redirect` and a `static` FlowEdge target `/**`. -/
theorem c8_wildcard_excluded_yet_targetable :
    (∀ (routes : List Route) (flows : List NavFlow) (fp : String),
        strIncludes fp "**" = true →
        mapGet (convertAnalysisToGraphData routes flows).routeNodes fp = none) ∧
    (convertAnalysisToGraphData c8Routes c8Flows).routeNodes.map Prod.fst = ["/oops"] ∧
    (convertAnalysisToGraphData c8Routes c8Flows).flowEdges =
      [{ source := "/oops", target := "/**", ftype := .redirect },
       { source := "/oops", target := "/**", ftype := .static }] := by
  refine ⟨?_, rfl, rfl⟩
  intro routes flows fp h
  show mapGet (convertRoutes routes).1 fp = none
  unfold mapGet
  cases hfind : (convertRoutes routes).1.find? (fun p => p.1 == fp) with
  | none => rfl
  | some q =>
    have hq := List.find?_some hfind
    have hmem := List.mem_of_find?_eq_some hfind
    have := convert_keys_no_wildcard routes q hmem
    rw [(by simpa using hq : q.1 = fp)] at this
    rw [h] at this
    cases this

/-- Witness for the universally quantified part of C8 at the concrete
wildcard path `/**` of the scenario. -/
theorem c8_wildcard_witness :
    strIncludes "/**" "**" = true ∧
    mapGet (convertAnalysisToGraphData c8Routes c8Flows).routeNodes "/**" = none :=
  ⟨by decide, c8_wildcard_excluded_yet_targetable.1 c8Routes c8Flows "/**" (by decide)⟩

theorem updateReason_self (r : Route) : updateReason r r = false := by
  simp [updateReason]

theorem updateByPath_nil (pr : Route) : updateByPath pr [] = none := rfl

theorem updateByPath_cons (pr r : Route) (rest : List Route) :
    updateByPath pr (r :: rest) =
      if r.fullPath = pr.fullPath then
        some ((if updateReason r pr then pr else r) :: rest)
      else (updateByPath pr rest).map (r :: ·) := rfl

theorem updateByComponent_nil (pr : Route) : updateByComponent pr [] = none := rfl

theorem updateByComponent_cons (pr r : Route) (rest : List Route) :
    updateByComponent pr (r :: rest) =
      if componentMatches r pr then
        some ((if componentReplaceCond r pr then pr else r) :: rest)
      else (updateByComponent pr rest).map (r :: ·) := rfl

theorem updateByPath_cons_none (pr r : Route) (rest : List Route) :
    updateByPath pr (r :: rest) = none ↔
      r.fullPath ≠ pr.fullPath ∧ updateByPath pr rest = none := by
  rw [updateByPath_cons]
  by_cases h : r.fullPath = pr.fullPath
  · rw [if_pos h]; simp [h]
  · rw [if_neg h]; simp [Option.map_eq_none', h]

theorem updateByPath_self_refl (pr : Route) (rest : List Route) :
    updateByPath pr (pr :: rest) = some (pr :: rest) := by
  rw [updateByPath_cons, if_pos rfl, updateReason_self]
  simp

theorem updateByPath_some_stable (pr : Route) :
    ∀ (l l' : List Route), updateByPath pr l = some l' →
      updateByPath pr l' = some l'
  | [], l', h => by simp [updateByPath_nil] at h
  | r :: rest, l', h => by
    rw [updateByPath_cons] at h
    by_cases hfp : r.fullPath = pr.fullPath
    · rw [if_pos hfp] at h
      injection h with h
      by_cases hu : updateReason r pr = true
      · rw [if_pos hu] at h
        subst h
        exact updateByPath_self_refl pr rest
      · rw [if_neg hu] at h
        subst h
        rw [updateByPath_cons, if_pos hfp, if_neg hu]
    · rw [if_neg hfp] at h
      obtain ⟨l2, hl2, hle⟩ := Option.map_eq_some'.mp h
      subst hle
      have := updateByPath_some_stable pr rest l2 hl2
      rw [updateByPath_cons, if_neg hfp, this]
      rfl

theorem updateByComponent_cases (pr : Route) :
    ∀ (l l' : List Route), updateByPath pr l = none →
      updateByComponent pr l = some l' →
      (l' = l ∨ updateByPath pr l' = some l')
  | [], l', _, h => by simp [updateByComponent_nil] at h
  | r :: rest, l', hnone, h => by
    rw [updateByPath_cons_none] at hnone
    rw [updateByComponent_cons] at h
    by_cases hcm : componentMatches r pr = true
    · rw [if_pos hcm] at h
      injection h with h
      by_cases hc : componentReplaceCond r pr = true
      · rw [if_pos hc] at h
        subst h
        exact Or.inr (updateByPath_self_refl pr rest)
      · rw [if_neg hc] at h
        subst h
        exact Or.inl rfl
    · rw [if_neg hcm] at h
      obtain ⟨l2, hl2, hle⟩ := Option.map_eq_some'.mp h
      subst hle
      rcases updateByComponent_cases pr rest l2 hnone.2 hl2 with h2 | h2
      · subst h2; exact Or.inl rfl
      · right
        rw [updateByPath_cons, if_neg hnone.1, h2]
        rfl

theorem updateByPath_append_self (pr : Route) :
    ∀ (l : List Route), updateByPath pr l = none →
      updateByPath pr (l ++ [pr]) = some (l ++ [pr])
  | [], _ => by simpa using updateByPath_self_refl pr []
  | r :: rest, h => by
    rw [updateByPath_cons_none] at h
    have := updateByPath_append_self pr rest h.2
    rw [List.cons_append, updateByPath_cons, if_neg h.1, this]
    rfl

theorem addRouteToCollection_idem (l : List Route) (pr : Route) :
    addRouteToCollection (addRouteToCollection l pr) pr = addRouteToCollection l pr := by
  by_cases hif : routeInfoFree pr = true
  · simp [addRouteToCollection, hif]
  · cases hup : updateByPath pr l with
    | some l1 =>
      have h1 : addRouteToCollection l pr = l1 := by
        simp [addRouteToCollection, hif, hup]
      rw [h1]
      simp [addRouteToCollection, hif, updateByPath_some_stable pr l l1 hup]
    | none =>
      cases huc : updateByComponent pr l with
      | some l1 =>
        have h1 : addRouteToCollection l pr = l1 := by
          simp [addRouteToCollection, hif, hup, huc]
        rw [h1]
        rcases updateByComponent_cases pr l l1 hup huc with h2 | h2
        · rw [h2] at h1 ⊢
          exact h1
        · simp [addRouteToCollection, hif, h2]
      | none =>
        by_cases hdup : (l.any fun r => trulyDuplicateWith r pr) = true
        · have h1 : addRouteToCollection l pr = l := by
            simp [addRouteToCollection, hif, hup, huc, hdup]
          rw [h1, h1]
        · have h1 : addRouteToCollection l pr = l ++ [pr] := by
            simp [addRouteToCollection, hif, hup, huc, hdup]
          rw [h1]
          simp [addRouteToCollection, hif, updateByPath_append_self pr l hup]

theorem reactAddRoute_idem (st : ReactState) (rc : ReactRouteConfig) :
    reactAddRoute (reactAddRoute st rc) rc = reactAddRoute st rc := by
  by_cases h : (st.routes.any (fun r =>
      r.fullPath == reactFullPath rc && r.component == reactComp rc)) = true
  · have h1 : reactAddRoute st rc = st := by unfold reactAddRoute; rw [if_pos h]
    rw [h1]
    exact h1
  · have h1 : reactAddRoute st rc =
        { routes := st.routes ++ [reactRouteOf rc]
          routeComponents := reactComponentsAdd st.routeComponents (reactComp rc) } := by
      unfold reactAddRoute; rw [if_neg h]
    rw [h1]
    have hcond : ((st.routes ++ [reactRouteOf rc]).any (fun r =>
        r.fullPath == reactFullPath rc && r.component == reactComp rc)) = true := by
      simp [List.any_append, reactRouteOf]
    unfold reactAddRoute
    rw [if_pos hcond]

/-- C10: the route-collection add operation is idempotent, for the Angular
Route Collection (`addRouteToCollection`) and for the React analyzer's
`addRoute` alike: adding the same route twice in succession leaves the
collection exactly as adding it once — the second add neither inserts a
duplicate entry nor modifies the existing one. -/
theorem c10_add_idempotent :
    (∀ (l : List Route) (pr : Route),
        addRouteToCollection (addRouteToCollection l pr) pr =
          addRouteToCollection l pr) ∧
    (∀ (st : ReactState) (rc : ReactRouteConfig),
        reactAddRoute (reactAddRoute st rc) rc = reactAddRoute st rc) :=
  ⟨addRouteToCollection_idem, reactAddRoute_idem⟩

/-- C1, amended: when two declarations share a fullPath, the collection
does not merge fields.  If the second declaration supplies a deferred
module the first lacks, the first entry is replaced wholesale by the
second (whose fields alone survive); if the second supplies nothing the
first lacks — in particular when both populate the component field — the
first-added entry is kept unchanged. -/
theorem c1_replace_or_keep_first (r1 r2 : Route)
    (hfp : r1.fullPath = r2.fullPath)
    (hc1 : truthy r1.component = true) :
    (truthy r2.loadChildren = true → truthy r1.loadChildren = false →
        addRouteToCollection (addRouteToCollection [] r1) r2 = [r2]) ∧
    (truthy r2.component = true → truthy r2.loadChildren = false →
        truthy r2.redirectTo = false →
        addRouteToCollection (addRouteToCollection [] r1) r2 = [r1]) := by
  have hfree1 : routeInfoFree r1 = false := by
    simp [routeInfoFree, hc1]
  have hadd1 : addRouteToCollection [] r1 = [r1] := by
    simp [addRouteToCollection, hfree1, updateByPath_nil, updateByComponent_nil]
  constructor
  · intro hl2 hl1
    have hfree2 : routeInfoFree r2 = false := by
      simp [routeInfoFree, hl2]
    have hreason : updateReason r1 r2 = true := by
      simp [updateReason, hl2, hl1]
    rw [hadd1]
    simp [addRouteToCollection, hfree2, updateByPath_cons, hfp, hreason]
  · intro hc2 hl2 hrt2
    have hfree2 : routeInfoFree r2 = false := by
      simp [routeInfoFree, hc2]
    have hreason : updateReason r1 r2 = false := by
      simp [updateReason, hc1, hl2, hrt2]
    rw [hadd1]
    simp [addRouteToCollection, hfree2, updateByPath_cons, hfp, hreason]

/-- Witness for the amended C1 statement: the `/settings` component
declaration followed by the `/settings` deferred-module declaration yields
the second entry alone; followed instead by a conflicting component
declaration, the first entry is kept. -/
theorem c1_replace_or_keep_witness :
    addRouteToCollection (addRouteToCollection [] settingsCompRoute)
        settingsLazyRoute = [settingsLazyRoute] ∧
    addRouteToCollection (addRouteToCollection [] settingsCompRoute)
        (Route.mk "settings" "/settings" (some "OtherComponent") none none [] [] false)
      = [settingsCompRoute] :=
  ⟨(c1_replace_or_keep_first settingsCompRoute settingsLazyRoute rfl (by decide)).1
      (by decide) (by decide),
   (c1_replace_or_keep_first settingsCompRoute
      (Route.mk "settings" "/settings" (some "OtherComponent") none none [] [] false)
      rfl (by decide)).2 (by decide) (by decide) (by decide)⟩

theorem startsWithList_singleton (a : Char) (l : List Char) :
    startsWithList [a] l = true ↔ l.head? = some a := by
  cases l with
  | nil => simp [startsWithList]
  | cons c t =>
    simp only [startsWithList, List.head?_cons, Option.some.injEq,
      Bool.and_eq_true, beq_iff_eq]
    constructor
    · rintro ⟨h, _⟩; exact h.symm
    · intro h
      exact ⟨h.symm, trivial⟩

theorem strStarts_slash (s : String) : strStarts s "/" = true ↔ s.data.head? = some '/' := by
  have h : strStarts s "/" = startsWithList ['/'] s.data := rfl
  rw [h, startsWithList_singleton]

theorem strEnds_slash (s : String) : strEnds s "/" = true ↔ s.data.getLast? = some '/' := by
  have h : strEnds s "/" = startsWithList ['/'] s.data.reverse := rfl
  rw [h, startsWithList_singleton, List.head?_reverse]

theorem head?_append_left {l1 l2 : List Char} (h : l1 ≠ []) :
    (l1 ++ l2).head? = l1.head? := by
  cases l1 with
  | nil => exact absurd rfl h
  | cons c t => rfl

theorem getLast?_append_right {l2 : List Char} (h : l2 ≠ []) :
    ∀ l1 : List Char, (l1 ++ l2).getLast? = l2.getLast?
  | [] => by simp
  | c :: t => by
    rw [List.cons_append]
    cases htl : t ++ l2 with
    | nil =>
      rcases List.append_eq_nil.mp htl with ⟨_, h2⟩
      exact absurd h2 h
    | cons x xs =>
      rw [List.getLast?_cons_cons, ← htl]
      exact getLast?_append_right h t

theorem getLast?_not_slash {l : List Char} (h : ∀ c ∈ l, c ≠ '/') :
    l.getLast? ≠ some '/' := by
  intro hg
  exact h '/' (List.mem_of_mem_getLast? hg) rfl

theorem head?_not_slash {l : List Char} (h : ∀ c ∈ l, c ≠ '/') :
    l.head? ≠ some '/' := by
  intro hg
  cases l with
  | nil => simp at hg
  | cons c t =>
    simp only [List.head?_cons, Option.some.injEq] at hg
    exact h c (List.mem_cons_self c t) hg

theorem noTwo_of_slashFree : ∀ {l : List Char}, (∀ c ∈ l, c ≠ '/') → noTwo l = true
  | [], _ => rfl
  | [_], _ => rfl
  | c :: d :: t, h => by
    have hc : c ≠ '/' := h c (by simp)
    simp only [noTwo, Bool.and_eq_true, Bool.not_eq_true']
    exact ⟨by simp [hc], noTwo_of_slashFree (fun x hx => h x (by simp [hx]))⟩

theorem noTwo_append : ∀ {l1 l2 : List Char}, noTwo l1 = true →
    noTwo l2 = true → (l1.getLast? = some '/' → l2.head? ≠ some '/') →
    noTwo (l1 ++ l2) = true
  | [], l2, _, h2, _ => h2
  | [c], l2, _, h2, hb => by
    rw [List.singleton_append, noTwo_cons]
    exact ⟨fun hc => hb (by simp [hc]), h2⟩
  | c :: d :: t, l2, h1, h2, hb => by
    rw [List.cons_append, noTwo_cons]
    rw [noTwo_cons] at h1
    refine ⟨?_, ?_⟩
    · intro hc
      rw [head?_append_left (by simp : d :: t ≠ [])]
      exact h1.1 hc
    · refine noTwo_append h1.2 h2 ?_
      intro hl
      apply hb
      rw [List.getLast?_cons_cons]
      exact hl

theorem string_ne_empty_data {s : String} (h : s ≠ "") : s.data ≠ [] := by
  intro hd
  apply h
  cases s with
  | mk d =>
    have : d = [] := hd
    rw [this]

theorem cleanSeg_props {s : String} (h : cleanSeg s = true) :
    s.data ≠ [] ∧ ∀ c ∈ s.data, c ≠ '/' := by
  unfold cleanSeg at h
  rw [Bool.and_eq_true] at h
  refine ⟨string_ne_empty_data (by simpa using h.1), ?_⟩
  intro c hc
  have := List.all_eq_true.mp h.2 c hc
  simpa using this

/-- Appending `"/" ++ s` for a clean segment `s` preserves the join
invariants: nonempty, not slash-terminated, no doubled slash, unchanged
head. -/
theorem joinStep_props {b s : String} (h1 : b.data ≠ [])
    (h2 : b.data.getLast? ≠ some '/') (h3 : noTwo b.data = true)
    (hs : cleanSeg s = true) :
    (b ++ "/" ++ s).data ≠ [] ∧ (b ++ "/" ++ s).data.getLast? ≠ some '/' ∧
      noTwo (b ++ "/" ++ s).data = true ∧
      (b ++ "/" ++ s).data.head? = b.data.head? := by
  obtain ⟨hs1, hs2⟩ := cleanSeg_props hs
  have hdata : (b ++ "/" ++ s).data = b.data ++ ('/' :: s.data) := by
    rw [String.data_append, String.data_append]
    simp
  refine ⟨?_, ?_, ?_, ?_⟩
  · rw [hdata]; simp
  · rw [hdata, getLast?_append_right (by simp)]
    cases hc : s.data with
    | nil => exact absurd hc hs1
    | cons x xs =>
      rw [List.getLast?_cons_cons, ← hc]
      exact getLast?_not_slash hs2
  · rw [hdata]
    refine noTwo_append h3 ?_ (fun hl => absurd hl h2)
    rw [noTwo_cons]
    exact ⟨fun _ => head?_not_slash hs2, noTwo_of_slashFree hs2⟩
  · rw [hdata]
    exact head?_append_left h1

/-- The slash-join of clean segments keeps the join invariants. -/
theorem joinSeg_props :
    ∀ (rest : List String) (b : String), b.data ≠ [] →
      b.data.getLast? ≠ some '/' → noTwo b.data = true →
      (∀ s ∈ rest, cleanSeg s = true) →
      (rest.foldl (fun a x => a ++ "/" ++ x) b).data ≠ [] ∧
      (rest.foldl (fun a x => a ++ "/" ++ x) b).data.getLast? ≠ some '/' ∧
      noTwo ((rest.foldl (fun a x => a ++ "/" ++ x) b).data) = true ∧
      (rest.foldl (fun a x => a ++ "/" ++ x) b).data.head? = b.data.head?
  | [], b, h1, h2, h3, _ => ⟨h1, h2, h3, rfl⟩
  | st :: rest, b, h1, h2, h3, hc => by
    rw [List.foldl_cons]
    obtain ⟨g1, g2, g3, g4⟩ :=
      joinStep_props h1 h2 h3 (hc st (List.mem_cons_self st rest))
    obtain ⟨k1, k2, k3, k4⟩ := joinSeg_props rest (b ++ "/" ++ st) g1 g2 g3
      (fun x hx => hc x (List.mem_cons_of_mem st hx))
    exact ⟨k1, k2, k3, k4.trans g4⟩

/-- Under clean segments, `buildAbs` is the plain slash-join. -/
theorem buildAbs_eq_join :
    ∀ (rest : List String) (b : String), b.data ≠ [] →
      b.data.getLast? ≠ some '/' → noTwo b.data = true →
      (∀ s ∈ rest, cleanSeg s = true) →
      buildAbs b rest = rest.foldl (fun a x => a ++ "/" ++ x) b
  | [], _, _, _, _, _ => rfl
  | st :: rest, b, h1, h2, h3, hc => by
    obtain ⟨hs1, hs2⟩ := cleanSeg_props (hc st (List.mem_cons_self st rest))
    have he : strEnds b "/" = false := by
      rw [Bool.eq_false_iff]
      intro hx
      exact h2 ((strEnds_slash b).mp hx)
    have hst : strStarts st "/" = false := by
      rw [Bool.eq_false_iff]
      intro hx
      exact head?_not_slash hs2 ((strStarts_slash st).mp hx)
    obtain ⟨g1, g2, g3, _⟩ :=
      joinStep_props h1 h2 h3 (hc st (List.mem_cons_self st rest))
    have ih := buildAbs_eq_join rest (b ++ "/" ++ st) g1 g2 g3
      (fun x hx => hc x (List.mem_cons_of_mem st hx))
    unfold buildAbs at ih ⊢
    rw [List.foldl_cons, List.foldl_cons, he, hst]
    simpa using ih

theorem trimSlashes_clean {s : String} (h : cleanSeg s = true) :
    trimSlashes s = s := by
  obtain ⟨h1, h2⟩ := cleanSeg_props h
  unfold trimSlashes
  have d1 : s.data.dropWhile (· == '/') = s.data := by
    cases hd : s.data with
    | nil => rfl
    | cons c t =>
      have : (c == '/') = false := by
        simp [h2 c (by rw [hd]; simp)]
      rw [List.dropWhile_cons, this]
      simp
  rw [d1]
  have d2 : s.data.reverse.dropWhile (· == '/') = s.data.reverse := by
    cases hd : s.data.reverse with
    | nil => rfl
    | cons c t =>
      have hcmem : c ∈ s.data := by
        rw [← List.mem_reverse, hd]
        simp
      have : (c == '/') = false := by simp [h2 c hcmem]
      rw [List.dropWhile_cons, this]
      simp
  rw [d2, List.reverse_reverse]

theorem filter_clean {l : List String} (h : ∀ s ∈ l, cleanSeg s = true) :
    l.filter (fun s => s != "") = l := by
  apply List.filter_eq_self.mpr
  intro a ha
  obtain ⟨h1, _⟩ := cleanSeg_props (h a ha)
  have : a ≠ "" := fun hae => h1 (by rw [hae])
  simpa using this

theorem map_trim_clean : ∀ l : List String, (∀ s ∈ l, cleanSeg s = true) →
    l.map trimSlashes = l
  | [], _ => rfl
  | a :: l, h => by
    rw [List.map_cons, trimSlashes_clean (h a (List.mem_cons_self a l)),
      map_trim_clean l (fun x hx => h x (List.mem_cons_of_mem a hx))]

/-- Facts about an absolute clean head segment `/w`. -/
theorem cleanAbsHead_props {s : String} (h : cleanAbsHead s = true) :
    s.data ≠ [] ∧ s.data.head? = some '/' ∧ s.data.getLast? ≠ some '/' ∧
      noTwo s.data = true := by
  unfold cleanAbsHead at h
  rw [Bool.and_eq_true, Bool.and_eq_true] at h
  obtain ⟨⟨hh, ht⟩, hall⟩ := h
  have hh' : s.data.head? = some '/' := by simpa using hh
  have hall' : ∀ c ∈ s.data.tail, c ≠ '/' := by
    intro c hc
    simpa using List.all_eq_true.mp hall c hc
  have hne : s.data ≠ [] := by
    intro hd
    rw [hd] at hh'
    simp at hh'
  refine ⟨hne, hh', ?_, ?_⟩
  · cases hd : s.data with
    | nil => exact absurd hd hne
    | cons c tl =>
      cases htl : tl with
      | nil =>
        rw [hd, htl] at ht
        simp at ht
      | cons x xs =>
        rw [List.getLast?_cons_cons, ← htl]
        apply getLast?_not_slash
        intro y hy
        apply hall' y
        rw [hd]
        simpa using hy
  · cases hd : s.data with
    | nil => exact absurd hd hne
    | cons c tl =>
      have hall2 : ∀ y ∈ tl, y ≠ '/' := by
        intro y hy
        apply hall' y
        rw [hd]
        simpa using hy
      rw [noTwo_cons]
      exact ⟨fun _ => head?_not_slash hall2, noTwo_of_slashFree hall2⟩

/-- Facts about a clean (relative) segment. -/
theorem cleanSeg_join_props {s : String} (h : cleanSeg s = true) :
    s.data ≠ [] ∧ s.data.getLast? ≠ some '/' ∧ noTwo s.data = true ∧
      s.data.head? ≠ some '/' := by
  obtain ⟨h1, h2⟩ := cleanSeg_props h
  exact ⟨h1, getLast?_not_slash h2, noTwo_of_slashFree h2, head?_not_slash h2⟩

theorem buildNavTarget_cons (s0 : String) (rest : List String) :
    buildNavTarget (s0 :: rest) =
      some ⟨collapseSlashes
        (if strStarts s0 "/" then buildAbs s0 rest
         else joinWith "/" (((s0 :: rest).map trimSlashes).filter
           (fun s => s != ""))).data⟩ := rfl

/-- C9, amended: for every imperative navigation call whose first argument
is a nonempty ordered list of segments (after mapping: a literal segment is
kept, a non-literal one becomes `:id` when its source text mentions `id`
case-insensitively, else `:` plus the slugified expression text — that is
`mapSeg`), the extractor emits a `dynamic` NavigationFlow whose target is
the `/`-join of the mapped segments: unconditionally when the leading
segment is absolute, and, for a relative target, when the route collection
carries no route for the enclosing component (otherwise the relative path
is first resolved against that route; an empty list emits no flow at all —
see the counterexample). -/
theorem c9_segment_flow_construction :
    (∀ (routes : List Route) (fromCtx : String) (segs : List NavSeg)
        (s0 : String) (rest : List String),
        segs.map mapSeg = s0 :: rest →
        cleanAbsHead s0 = true →
        (∀ s ∈ rest, cleanSeg s = true) →
        parseNavigationCall routes fromCtx (.segs segs) =
          some { fromRef := fromCtx, toPath := joinWith "/" (s0 :: rest),
                 ftype := .dynamic, label := none }) ∧
    (∀ (routes : List Route) (fromCtx : String) (segs : List NavSeg)
        (s0 : String) (rest : List String),
        segs.map mapSeg = s0 :: rest →
        cleanSeg s0 = true →
        (∀ s ∈ rest, cleanSeg s = true) →
        routes.find? (fun r => r.component == some fromCtx) = none →
        parseNavigationCall routes fromCtx (.segs segs) =
          some { fromRef := fromCtx, toPath := joinWith "/" (s0 :: rest),
                 ftype := .dynamic, label := none }) := by
  constructor
  · intro routes fromCtx segs s0 rest h0 habs hrest
    obtain ⟨hne, hhead, hlast, hnoTwo⟩ := cleanAbsHead_props habs
    have habs' : strStarts s0 "/" = true := (strStarts_slash s0).mpr hhead
    have hbuild : buildAbs s0 rest = joinWith "/" (s0 :: rest) :=
      buildAbs_eq_join rest s0 hne hlast hnoTwo hrest
    obtain ⟨j1, j2, j3, j4⟩ := joinSeg_props rest s0 hne hlast hnoTwo hrest
    have hjw : (joinWith "/" (s0 :: rest)).data =
        (rest.foldl (fun a x => a ++ "/" ++ x) s0).data := rfl
    have hT : (⟨collapseSlashes
        (if strStarts s0 "/" then buildAbs s0 rest
         else joinWith "/" (((s0 :: rest).map trimSlashes).filter
           (fun s => s != ""))).data⟩ : String) = joinWith "/" (s0 :: rest) := by
      rw [habs']
      simp only [if_true]
      rw [hbuild]
      have hcol : collapseSlashes (joinWith "/" (s0 :: rest)).data =
          (joinWith "/" (s0 :: rest)).data := by
        rw [hjw]
        exact collapse_of_noTwo _ j3
      rw [hcol]
    have h1 : navTargetOf (.segs segs) = some (joinWith "/" (s0 :: rest)) := by
      show buildNavTarget (segs.map mapSeg) = _
      rw [h0, buildNavTarget_cons, hT]
    have hjhead : (joinWith "/" (s0 :: rest)).data.head? = some '/' := by
      rw [hjw, j4]
      exact hhead
    have h2 : resolveNavTarget routes fromCtx (joinWith "/" (s0 :: rest)) =
        joinWith "/" (s0 :: rest) := by
      unfold resolveNavTarget
      rw [if_pos ((strStarts_slash _).mpr hjhead)]
    unfold parseNavigationCall
    rw [h1]
    show some (NavFlow.mk fromCtx
        (resolveNavTarget routes fromCtx (joinWith "/" (s0 :: rest))) .dynamic none) =
      some (NavFlow.mk fromCtx (joinWith "/" (s0 :: rest)) .dynamic none)
    rw [h2]
  · intro routes fromCtx segs s0 rest h0 hseg hrest hfind
    obtain ⟨hne, hlast, hnoTwo, hhead⟩ := cleanSeg_join_props hseg
    have hrel : strStarts s0 "/" = false := by
      rw [Bool.eq_false_iff]
      intro hx
      exact hhead ((strStarts_slash s0).mp hx)
    have hclean : ∀ x ∈ s0 :: rest, cleanSeg x = true := by
      intro x hx
      rcases List.mem_cons.mp hx with hx | hx
      · rw [hx]; exact hseg
      · exact hrest x hx
    obtain ⟨j1, j2, j3, j4⟩ := joinSeg_props rest s0 hne hlast hnoTwo hrest
    have hjw : (joinWith "/" (s0 :: rest)).data =
        (rest.foldl (fun a x => a ++ "/" ++ x) s0).data := rfl
    have hT : (⟨collapseSlashes
        (if strStarts s0 "/" then buildAbs s0 rest
         else joinWith "/" (((s0 :: rest).map trimSlashes).filter
           (fun s => s != ""))).data⟩ : String) = joinWith "/" (s0 :: rest) := by
      rw [hrel]
      simp only [Bool.false_eq_true, if_false]
      rw [map_trim_clean _ hclean, filter_clean hclean]
      have hcol : collapseSlashes (joinWith "/" (s0 :: rest)).data =
          (joinWith "/" (s0 :: rest)).data := by
        rw [hjw]
        exact collapse_of_noTwo _ j3
      rw [hcol]
    have h1 : navTargetOf (.segs segs) = some (joinWith "/" (s0 :: rest)) := by
      show buildNavTarget (segs.map mapSeg) = _
      rw [h0, buildNavTarget_cons, hT]
    have hjhead : strStarts (joinWith "/" (s0 :: rest)) "/" = false := by
      rw [Bool.eq_false_iff]
      intro hx
      have hx2 := (strStarts_slash _).mp hx
      rw [hjw, j4] at hx2
      exact hhead hx2
    have h2 : resolveNavTarget routes fromCtx (joinWith "/" (s0 :: rest)) =
        joinWith "/" (s0 :: rest) := by
      unfold resolveNavTarget
      rw [hjhead]
      simp only [Bool.false_eq_true, if_false]
      rw [hfind]
    unfold parseNavigationCall
    rw [h1]
    show some (NavFlow.mk fromCtx
        (resolveNavTarget routes fromCtx (joinWith "/" (s0 :: rest))) .dynamic none) =
      some (NavFlow.mk fromCtx (joinWith "/" (s0 :: rest)) .dynamic none)
    rw [h2]

/-- Witness for the amended C9 statement: the call
`router.navigate(['/products', item.userId])` from `ProductListComponent`
emits the dynamic flow to `/products/:id`. -/
theorem c9_segment_flow_witness :
    parseNavigationCall [] "ProductListComponent"
        (.segs [.lit "/products", .expr "item.userId"]) =
      some { fromRef := "ProductListComponent",
             toPath := joinWith "/" ["/products", ":id"],
             ftype := .dynamic, label := none } ∧
    joinWith "/" ["/products", ":id"] = "/products/:id" :=
  ⟨c9_segment_flow_construction.1 [] "ProductListComponent"
      [.lit "/products", .expr "item.userId"] "/products" [":id"]
      rfl (by decide) (by decide),
   rfl⟩

theorem normalizeChars_head_slash {l : List Char} (h : l.head? = some '/') :
    (normalizeChars l).head? = some '/' := by
  unfold normalizeChars
  have hm : (collapseSlashes l).head? = some '/' := by
    rw [collapse_head]; exact h
  unfold stripTrail
  by_cases hc : collapseSlashes l ≠ ['/'] ∧ (collapseSlashes l).getLast? = some '/'
  · rw [if_pos hc]
    cases hcl : collapseSlashes l with
    | nil => rw [hcl] at hm; simp at hm
    | cons a tl =>
      rw [hcl] at hm
      simp only [List.head?_cons, Option.some.injEq] at hm
      cases htl : tl with
      | nil => simp [List.dropLast, emptyToRoot]
      | cons b tb =>
        have hdl : (a :: b :: tb).dropLast = a :: (b :: tb).dropLast := rfl
        rw [hdl]
        rw [show emptyToRoot (a :: (b :: tb).dropLast) = a :: (b :: tb).dropLast from
          if_neg (by simp)]
        simp [hm]
  · rw [if_neg hc]
    have hne : collapseSlashes l ≠ [] := by
      intro hx; rw [hx] at hm; simp at hm
    rw [show emptyToRoot (collapseSlashes l) = collapseSlashes l from if_neg hne]
    exact hm

theorem joinChildPath_abs {parent : String} (pathSeg : String)
    (hp : strStarts parent "/" = true) :
    strStarts (joinChildPath parent pathSeg) "/" = true := by
  have hphead : parent.data.head? = some '/' := (strStarts_slash parent).mp hp
  have hpne : parent.data ≠ [] := by
    intro hx; rw [hx] at hphead; simp at hphead
  rw [strStarts_slash]
  show (normalizeChars _).head? = some '/'
  apply normalizeChars_head_slash
  by_cases h1 : parent = "/" ∧ pathSeg = ""
  · rw [if_pos h1]; rfl
  · rw [if_neg h1]
    by_cases h2 : parent = "/"
    · rw [if_pos h2]
      rw [String.data_append]
      rfl
    · rw [if_neg h2]
      by_cases h3 : pathSeg = ""
      · rw [if_pos h3]; exact hphead
      · rw [if_neg h3]
        rw [String.data_append, String.data_append, List.append_assoc]
        rw [head?_append_left hpne]
        exact hphead

theorem rootFlag_fullPath {parent pathSeg : String} {st : List Route}
    (h : rootFlagOf parent pathSeg st = true) :
    joinChildPath parent pathSeg = "/" := by
  unfold rootFlagOf at h
  by_cases hc : parent = "/" ∧ pathSeg = ""
  · unfold joinChildPath
    rw [if_pos hc]
    rfl
  · rw [if_neg hc] at h
    cases h

theorem updateByPath_none_mem (pr : Route) :
    ∀ l : List Route, updateByPath pr l = none →
      ∀ r ∈ l, r.fullPath ≠ pr.fullPath
  | [], _, r, hr => absurd hr (List.not_mem_nil r)
  | x :: rest, h, r, hr => by
    rw [updateByPath_cons_none] at h
    rcases List.mem_cons.mp hr with hr | hr
    · rw [hr]; exact h.1
    · exact updateByPath_none_mem pr rest h.2 r hr

theorem updateByPath_mem (pr : Route) :
    ∀ (l l' : List Route), updateByPath pr l = some l' →
      ∀ x ∈ l', x ∈ l ∨ x = pr
  | [], l', h => by simp [updateByPath_nil] at h
  | r :: rest, l', h => by
    rw [updateByPath_cons] at h
    by_cases hfp : r.fullPath = pr.fullPath
    · rw [if_pos hfp] at h
      injection h with h
      subst h
      intro x hx
      rcases List.mem_cons.mp hx with hx | hx
      · by_cases hu : updateReason r pr = true
        · rw [if_pos hu] at hx
          exact Or.inr hx
        · rw [if_neg hu] at hx
          exact Or.inl (by rw [hx]; exact List.mem_cons_self r rest)
      · exact Or.inl (List.mem_cons_of_mem r hx)
    · rw [if_neg hfp] at h
      obtain ⟨l2, hl2, hle⟩ := Option.map_eq_some'.mp h
      subst hle
      intro x hx
      rcases List.mem_cons.mp hx with hx | hx
      · exact Or.inl (by rw [hx]; exact List.mem_cons_self r rest)
      · rcases updateByPath_mem pr rest l2 hl2 x hx with h2 | h2
        · exact Or.inl (List.mem_cons_of_mem r h2)
        · exact Or.inr h2

theorem updateByComponent_mem (pr : Route) :
    ∀ (l l' : List Route), updateByComponent pr l = some l' →
      ∀ x ∈ l', x ∈ l ∨ x = pr
  | [], l', h => by simp [updateByComponent_nil] at h
  | r :: rest, l', h => by
    rw [updateByComponent_cons] at h
    by_cases hcm : componentMatches r pr = true
    · rw [if_pos hcm] at h
      injection h with h
      subst h
      intro x hx
      rcases List.mem_cons.mp hx with hx | hx
      · by_cases hu : componentReplaceCond r pr = true
        · rw [if_pos hu] at hx
          exact Or.inr hx
        · rw [if_neg hu] at hx
          exact Or.inl (by rw [hx]; exact List.mem_cons_self r rest)
      · exact Or.inl (List.mem_cons_of_mem r hx)
    · rw [if_neg hcm] at h
      obtain ⟨l2, hl2, hle⟩ := Option.map_eq_some'.mp h
      subst hle
      intro x hx
      rcases List.mem_cons.mp hx with hx | hx
      · exact Or.inl (by rw [hx]; exact List.mem_cons_self r rest)
      · rcases updateByComponent_mem pr rest l2 hl2 x hx with h2 | h2
        · exact Or.inl (List.mem_cons_of_mem r h2)
        · exact Or.inr h2

theorem updateByPath_pairwise (pr : Route) :
    ∀ (l l' : List Route),
      l.Pairwise (fun a b => a.fullPath ≠ b.fullPath) →
      updateByPath pr l = some l' →
      l'.Pairwise (fun a b => a.fullPath ≠ b.fullPath)
  | [], l', _, h => by simp [updateByPath_nil] at h
  | r :: rest, l', hpw, h => by
    rw [List.pairwise_cons] at hpw
    rw [updateByPath_cons] at h
    by_cases hfp : r.fullPath = pr.fullPath
    · rw [if_pos hfp] at h
      injection h with h
      subst h
      rw [List.pairwise_cons]
      refine ⟨?_, hpw.2⟩
      intro y hy
      by_cases hu : updateReason r pr = true
      · rw [if_pos hu]
        rw [← hfp]
        exact hpw.1 y hy
      · rw [if_neg hu]
        exact hpw.1 y hy
    · rw [if_neg hfp] at h
      obtain ⟨l2, hl2, hle⟩ := Option.map_eq_some'.mp h
      subst hle
      rw [List.pairwise_cons]
      refine ⟨?_, updateByPath_pairwise pr rest l2 hpw.2 hl2⟩
      intro y hy
      rcases updateByPath_mem pr rest l2 hl2 y hy with h2 | h2
      · exact hpw.1 y h2
      · rw [h2]; exact hfp

theorem updateByComponent_pairwise (pr : Route) :
    ∀ (l l' : List Route),
      l.Pairwise (fun a b => a.fullPath ≠ b.fullPath) →
      (∀ r ∈ l, r.fullPath ≠ pr.fullPath) →
      updateByComponent pr l = some l' →
      l'.Pairwise (fun a b => a.fullPath ≠ b.fullPath)
  | [], l', _, _, h => by simp [updateByComponent_nil] at h
  | r :: rest, l', hpw, hni, h => by
    rw [List.pairwise_cons] at hpw
    rw [updateByComponent_cons] at h
    by_cases hcm : componentMatches r pr = true
    · rw [if_pos hcm] at h
      injection h with h
      subst h
      rw [List.pairwise_cons]
      refine ⟨?_, hpw.2⟩
      intro y hy
      by_cases hu : componentReplaceCond r pr = true
      · rw [if_pos hu]
        intro hx
        exact hni y (List.mem_cons_of_mem r hy) hx.symm
      · rw [if_neg hu]
        exact hpw.1 y hy
    · rw [if_neg hcm] at h
      obtain ⟨l2, hl2, hle⟩ := Option.map_eq_some'.mp h
      subst hle
      rw [List.pairwise_cons]
      refine ⟨?_, updateByComponent_pairwise pr rest l2 hpw.2
        (fun x hx => hni x (List.mem_cons_of_mem r hx)) hl2⟩
      intro y hy
      rcases updateByComponent_mem pr rest l2 hl2 y hy with h2 | h2
      · exact hpw.1 y h2
      · rw [h2]
        exact hni r (List.mem_cons_self r rest)

/-- The Route Collection add operation preserves the collection invariant
when fed a good route. -/
theorem addRouteToCollection_inv {l : List Route} {pr : Route}
    (hl : collectionInv l) (hpr : goodRoute pr) :
    collectionInv (addRouteToCollection l pr) := by
  obtain ⟨hg, hpw⟩ := hl
  by_cases hif : routeInfoFree pr = true
  · simpa [addRouteToCollection, hif] using ⟨hg, hpw⟩
  · cases hup : updateByPath pr l with
    | some l1 =>
      have he : addRouteToCollection l pr = l1 := by
        simp [addRouteToCollection, hif, hup]
      rw [he]
      refine ⟨?_, updateByPath_pairwise pr l l1 hpw hup⟩
      intro r hr
      rcases updateByPath_mem pr l l1 hup r hr with h2 | h2
      · exact hg r h2
      · rw [h2]; exact hpr
    | none =>
      have hni := updateByPath_none_mem pr l hup
      cases huc : updateByComponent pr l with
      | some l1 =>
        have he : addRouteToCollection l pr = l1 := by
          simp [addRouteToCollection, hif, hup, huc]
        rw [he]
        refine ⟨?_, updateByComponent_pairwise pr l l1 hpw hni huc⟩
        intro r hr
        rcases updateByComponent_mem pr l l1 huc r hr with h2 | h2
        · exact hg r h2
        · rw [h2]; exact hpr
      | none =>
        by_cases hdup : (l.any fun r => trulyDuplicateWith r pr) = true
        · have he : addRouteToCollection l pr = l := by
            simp [addRouteToCollection, hif, hup, huc, hdup]
          rw [he]
          exact ⟨hg, hpw⟩
        · have he : addRouteToCollection l pr = l ++ [pr] := by
            simp [addRouteToCollection, hif, hup, huc, hdup]
          rw [he]
          constructor
          · intro r hr
            rcases List.mem_append.mp hr with h2 | h2
            · exact hg r h2
            · rw [List.mem_singleton.mp h2]; exact hpr
          · rw [List.pairwise_append]
            refine ⟨hpw, List.pairwise_singleton _ _, ?_⟩
            intro a ha b hb
            rw [List.mem_singleton.mp hb]
            exact hni a ha

theorem foldl_add_inv :
    ∀ (rs : List Route) (l : List Route), collectionInv l →
      (∀ r ∈ rs, goodRoute r) →
      collectionInv (rs.foldl addRouteToCollection l)
  | [], l, hl, _ => hl
  | r :: rs, l, hl, hrs => by
    rw [List.foldl_cons]
    exact foldl_add_inv rs _ (addRouteToCollection_inv hl (hrs r (List.mem_cons_self r rs)))
      (fun x hx => hrs x (List.mem_cons_of_mem r hx))

mutual

theorem parseRouteObject_good :
    ∀ (d : RouteDecl) (parent : String) (st : List Route),
      strStarts parent "/" = true → collectionInv st →
      collectionInv (parseRouteObject parent st d).2 ∧
        ∀ r, (parseRouteObject parent st d).1 = some r → goodRoute r
  | .mk path? comp lc rt gs ch?, parent, st, hp, hinv => by
    cases ch? with
    | none =>
      cases path? with
      | some ps =>
        refine ⟨hinv, ?_⟩
        intro r hr
        injection hr with hr
        rw [← hr]
        exact ⟨joinChildPath_abs ps hp, fun hx => rootFlag_fullPath hx⟩
      | none =>
        by_cases hnp : comp.isNone ∧ (none : Option (List RouteDecl)).isNone ∧
            lc.isNone ∧ rt.isNone
        · have he : parseRouteObject parent st (.mk none comp lc rt gs none) =
              (none, st) := by
            simp only [parseRouteObject, if_pos hnp]
          rw [he]
          exact ⟨hinv, fun r hr => by cases hr⟩
        · have he : parseRouteObject parent st (.mk none comp lc rt gs none) =
              (some (.mk "" (joinChildPath parent "")
                (if truthy comp then comp else none)
                (if truthy rt then rt else none)
                (if truthy lc then lc else none) gs []
                (rootFlagOf parent "" st)), st) := by
            simp only [parseRouteObject, if_neg hnp]
          rw [he]
          refine ⟨hinv, ?_⟩
          intro r hr
          injection hr with hr
          rw [← hr]
          exact ⟨joinChildPath_abs "" hp, fun hx => rootFlag_fullPath hx⟩
    | some cs =>
      have hcp := @joinChildPath_abs parent
      cases path? with
      | some ps =>
        obtain ⟨ha1, ha2⟩ :=
          parseRouteArray_good cs (joinChildPath parent ps) st (hcp ps hp) hinv
        refine ⟨foldl_add_inv _ _ ha1 ha2, ?_⟩
        intro r hr
        injection hr with hr
        rw [← hr]
        exact ⟨hcp ps hp, fun hx => rootFlag_fullPath hx⟩
      | none =>
        by_cases hnp : comp.isNone ∧ (some cs : Option (List RouteDecl)).isNone ∧
            lc.isNone ∧ rt.isNone
        · exact absurd hnp.2.1 (by simp)
        · have he : parseRouteObject parent st (.mk none comp lc rt gs (some cs)) =
              (some (.mk "" (joinChildPath parent "")
                (if truthy comp then comp else none)
                (if truthy rt then rt else none)
                (if truthy lc then lc else none) gs
                (parseRouteArray (joinChildPath parent "") st cs).1
                (rootFlagOf parent "" st)),
               (parseRouteArray (joinChildPath parent "") st cs).1.foldl
                 addRouteToCollection
                 (parseRouteArray (joinChildPath parent "") st cs).2) := by
            simp only [parseRouteObject, if_neg hnp]
          rw [he]
          obtain ⟨ha1, ha2⟩ :=
            parseRouteArray_good cs (joinChildPath parent "") st (hcp "" hp) hinv
          refine ⟨foldl_add_inv _ _ ha1 ha2, ?_⟩
          intro r hr
          injection hr with hr
          rw [← hr]
          exact ⟨hcp "" hp, fun hx => rootFlag_fullPath hx⟩

theorem parseRouteArray_good :
    ∀ (ds : List RouteDecl) (parent : String) (st : List Route),
      strStarts parent "/" = true → collectionInv st →
      collectionInv (parseRouteArray parent st ds).2 ∧
        ∀ r ∈ (parseRouteArray parent st ds).1, goodRoute r
  | [], parent, st, _, hinv => ⟨hinv, fun r hr => absurd hr (List.not_mem_nil r)⟩
  | d :: ds, parent, st, hp, hinv => by
    obtain ⟨ho1, ho2⟩ := parseRouteObject_good d parent st hp hinv
    obtain ⟨ha1, ha2⟩ :=
      parseRouteArray_good ds parent (parseRouteObject parent st d).2 hp ho1
    refine ⟨ha1, ?_⟩
    intro r hr
    rcases List.mem_append.mp hr with hr | hr
    · cases hobj : (parseRouteObject parent st d).1 with
      | none => rw [hobj] at hr; cases hr
      | some x =>
        rw [hobj] at hr
        rw [List.mem_singleton.mp hr]
        exact ho2 x hobj
    · exact ha2 r hr

end

theorem isRoot_count_le_one :
    ∀ l : List Route, l.Pairwise (fun a b => a.fullPath ≠ b.fullPath) →
      (∀ r ∈ l, r.isRoot = true → r.fullPath = "/") →
      (l.filter (fun r => r.isRoot)).length ≤ 1
  | [], _, _ => by simp
  | r :: rest, hpw, hr => by
    rw [List.pairwise_cons] at hpw
    rw [List.filter_cons]
    by_cases hir : r.isRoot = true
    · rw [if_pos (by simpa using hir)]
      have hnil : rest.filter (fun x => x.isRoot) = [] := by
        rw [List.filter_eq_nil_iff]
        intro x hx
        simp only [Bool.not_eq_true]
        rw [Bool.eq_false_iff]
        intro hxr
        apply hpw.1 x hx
        rw [hr r (List.mem_cons_self r rest) hir,
          hr x (List.mem_cons_of_mem r hx) hxr]
      rw [hnil]
      simp
    · rw [if_neg (by simpa using hir)]
      exact isRoot_count_le_one rest hpw.2
        (fun x hx => hr x (List.mem_cons_of_mem r hx))

theorem strStarts_slash_append (s : String) : strStarts ("/" ++ s) "/" = true := by
  rw [strStarts_slash, String.data_append]
  rfl

theorem reactFullPath_starts (rc : ReactRouteConfig) :
    strStarts (reactFullPath rc) "/" = true := by
  unfold reactFullPath
  by_cases h : strStarts rc.path "/" = true
  · rw [if_pos h]; exact h
  · rw [if_neg h]; exact strStarts_slash_append rc.path

theorem reactAddRoute_good (st : ReactState) (rc : ReactRouteConfig)
    (h : reactGoodState st) : reactGoodState (reactAddRoute st rc) := by
  obtain ⟨hg, hpw⟩ := h
  unfold reactAddRoute
  by_cases hc : (st.routes.any fun r =>
      r.fullPath == reactFullPath rc && r.component == reactComp rc) = true
  · rw [if_pos hc]; exact ⟨hg, hpw⟩
  · rw [if_neg hc]
    constructor
    · intro r hr
      rcases List.mem_append.mp hr with h2 | h2
      · exact hg r h2
      · rw [List.mem_singleton.mp h2]
        exact ⟨reactFullPath_starts rc, rfl⟩
    · rw [List.pairwise_append]
      refine ⟨hpw, List.pairwise_singleton _ _, ?_⟩
      intro a ha b hb
      rw [List.mem_singleton.mp hb]
      by_contra hcon
      push_neg at hcon
      simp only [reactRouteOf, Route.fullPath_mk, Route.component_mk] at hcon
      apply hc
      rw [List.any_eq_true]
      refine ⟨a, ha, ?_⟩
      simp [hcon.1, hcon.2]

theorem reactFold_good :
    ∀ (rcs : List ReactRouteConfig) (st : ReactState), reactGoodState st →
      reactGoodState (rcs.foldl reactAddRoute st)
  | [], _, h => h
  | rc :: rcs, st, h => by
    rw [List.foldl_cons]
    exact reactFold_good rcs _ (reactAddRoute_good st rc h)

/-- C2, amended, over both cited implementations.  Angular: after any full
declarative run, every Route's fullPath starts with `/`, fullPaths are
pairwise distinct, and at most one Route has isRoot = true, that one
having fullPath `/`.  React: after any sequence of addRoute calls from
the empty state, every Route's fullPath starts with `/`, no Route has
isRoot = true, and no two Routes agree on both fullPath and component —
the duplicate check tests the (fullPath, component) pair jointly, so
duplicate fullPaths with distinct components coexist.  The claim's
no-doubled-slashes part is dropped: Angular's single-pass collapse can
leave a doubled slash (see the counterexample) and React applies no
slash normalization at all. -/
theorem c2_collection_invariant (decls : List RouteDecl)
    (rcs : List ReactRouteConfig) :
    ((∀ r ∈ runAnalyzer decls, strStarts r.fullPath "/" = true) ∧
     (runAnalyzer decls).Pairwise (fun a b => a.fullPath ≠ b.fullPath) ∧
     (∀ r ∈ runAnalyzer decls, r.isRoot = true → r.fullPath = "/") ∧
     ((runAnalyzer decls).filter (fun r => r.isRoot)).length ≤ 1) ∧
    ((∀ r ∈ (rcs.foldl reactAddRoute ⟨[], []⟩).routes,
        strStarts r.fullPath "/" = true ∧ r.isRoot = false) ∧
     (rcs.foldl reactAddRoute ⟨[], []⟩).routes.Pairwise
       (fun a b => a.fullPath ≠ b.fullPath ∨ a.component ≠ b.component)) := by
  constructor
  · have h0 : collectionInv [] := ⟨fun r hr => absurd hr (List.not_mem_nil r),
      List.Pairwise.nil⟩
    obtain ⟨h1, h2⟩ := parseRouteArray_good decls "/" [] (by decide) h0
    have hinv : collectionInv (runAnalyzer decls) := by
      unfold runAnalyzer processRouteArrayLiteral
      exact foldl_add_inv _ _ h1 h2
    obtain ⟨hg, hpw⟩ := hinv
    exact ⟨fun r hr => (hg r hr).1, hpw, fun r hr => (hg r hr).2,
      isRoot_count_le_one _ hpw (fun r hr => (hg r hr).2)⟩
  · have h := reactFold_good rcs ⟨[], []⟩
      ⟨fun r hr => absurd hr (List.not_mem_nil r), List.Pairwise.nil⟩
    exact ⟨h.1, h.2⟩

end UserPravah
